import Mathlib

/-!
Verification development for the retrieval-and-structured-analysis pipeline
(backend of the EiT-AI-Project repository).

The Python sources are shallowly embedded:
* strings are Lean `String` / `List Char`;
* machine floats are idealised as exact rationals `ℚ` (for score arithmetic)
  or reals `ℝ` (where the code divides by a Euclidean norm);
* fallible operations return `Option` / `Except`.

Sections mirror the source files:
* `src/backend/app/services/llm.py`  — response parsing, schema validation,
  retry logic (`OllamaClient`), and the fallback in `src/backend/main.py`;
* `src/backend/app/llm_service.py`   — deterministic mock (fallback) analysis;
* `src/backend/app/vector_store.py`  — hash/keyword embedding and dense search;
* `src/backend/main.py`              — TF-IDF ranking step of `analyze_draft`;
* `src/backend/scripts/clean_notices.py` — dataset cleaning.
-/

/-! ### Python-style string primitives

`pyStripL` models Python `str.strip()` (drop leading and trailing whitespace);
`splitOnNl` models `str.split("\n")`, `joinNl` models `"\n".join`.
-/

/-- Whitespace as recognised by Python `str.strip`/`str.split()`
(restricted to the ASCII whitespace actually occurring in this pipeline). -/
def isPyWs (c : Char) : Bool := c = ' ' ∨ c = '\t' ∨ c = '\n' ∨ c = '\r' ∨ c = '\x0b' ∨ c = '\x0c'

/-- Python `str.strip()` on a character list. -/
def pyStripL (cs : List Char) : List Char :=
  ((cs.dropWhile isPyWs).reverse.dropWhile isPyWs).reverse

/-- Python `str.lower()` (ASCII case mapping suffices for this pipeline). -/
def pyLower (s : String) : String := String.mk (s.toList.map Char.toLower)

/-- Python `s.split("\n")`: split a character list at every newline.
Always returns at least one (possibly empty) line. -/
def splitOnNl : List Char → List (List Char)
  | [] => [[]]
  | c :: rest =>
    let ls := splitOnNl rest
    if c = '\n' then [] :: ls
    else (c :: ls.headI) :: ls.tail

/-- Python `"\n".join(lines)`. -/
def joinNl : List (List Char) → List Char
  | [] => []
  | [l] => l
  | l :: ls => l ++ '\n' :: joinNl ls

/-! ### JSON values and a model of Python `json.loads`

`Json` is the data model for decoded JSON documents.  `jsonParseL` models
`json.loads` on a character list: leading/trailing whitespace is tolerated
(modelled by stripping before parsing, which is extensionally what
`json.loads` does), and any syntax error yields `none`.
The `NaN`/`Infinity` extensions of the Python decoder are not modelled. -/

inductive Json where
  | null : Json
  | bool : Bool → Json
  | num : ℚ → Json
  | str : String → Json
  | arr : List Json → Json
  | obj : List (String × Json) → Json

/-- JSON inter-token whitespace (RFC 8259: space, tab, newline, carriage return). -/
def isJsonWs (c : Char) : Bool := c = ' ' ∨ c = '\t' ∨ c = '\n' ∨ c = '\r'

/-- Skip inter-token whitespace. -/
def skipJsonWs (cs : List Char) : List Char := cs.dropWhile isJsonWs

/-- Decode one hexadecimal digit. -/
def hexVal (c : Char) : Option Nat :=
  if '0' ≤ c ∧ c ≤ '9' then some (c.toNat - '0'.toNat)
  else if 'a' ≤ c ∧ c ≤ 'f' then some (c.toNat - 'a'.toNat + 10)
  else if 'A' ≤ c ∧ c ≤ 'F' then some (c.toNat - 'A'.toNat + 10)
  else none

/-- Parse the body of a JSON string (the opening quote already consumed),
returning the decoded characters and the remaining input.  Control
characters below `U+0020` are rejected, as by the strict Python decoder. -/
def parseStrBody : List Char → Option (List Char × List Char)
  | [] => none
  | '"' :: rest => some ([], rest)
  | '\\' :: e :: rest =>
    match e with
    | '"' => (parseStrBody rest).map (fun p => ('"' :: p.1, p.2))
    | '\\' => (parseStrBody rest).map (fun p => ('\\' :: p.1, p.2))
    | '/' => (parseStrBody rest).map (fun p => ('/' :: p.1, p.2))
    | 'b' => (parseStrBody rest).map (fun p => ('\x08' :: p.1, p.2))
    | 'f' => (parseStrBody rest).map (fun p => ('\x0c' :: p.1, p.2))
    | 'n' => (parseStrBody rest).map (fun p => ('\n' :: p.1, p.2))
    | 'r' => (parseStrBody rest).map (fun p => ('\r' :: p.1, p.2))
    | 't' => (parseStrBody rest).map (fun p => ('\t' :: p.1, p.2))
    | 'u' =>
      match rest with
      | h1 :: h2 :: h3 :: h4 :: rest2 =>
        match hexVal h1, hexVal h2, hexVal h3, hexVal h4 with
        | some a, some b, some c, some d =>
          let n := ((a * 16 + b) * 16 + c) * 16 + d
          (parseStrBody rest2).map (fun p => (Char.ofNat n :: p.1, p.2))
        | _, _, _, _ => none
      | _ => none
    | _ => none
  | c :: rest =>
    if c.toNat < 32 then none
    else (parseStrBody rest).map (fun p => (c :: p.1, p.2))

/-- Parse a run of decimal digits (possibly empty), returning digits and rest. -/
def takeDigits (cs : List Char) : List Char × List Char :=
  (cs.takeWhile Char.isDigit, cs.dropWhile Char.isDigit)

/-- Numeric value of a digit run. -/
def digitsToNat : List Char → Nat
  | [] => 0
  | c :: rest => List.foldl (fun acc d => acc * 10 + (d.toNat - '0'.toNat)) (c.toNat - '0'.toNat) rest

/-- Parse a JSON number (`-?(0|[1-9][0-9]*)(\.[0-9]+)?([eE][-+]?[0-9]+)?`)
into an exact rational.  The value is assembled with `mkRat` from an integer
mantissa and a power-of-ten denominator, which is the exact value of the
decimal literal. -/
def parseJsonNum (cs : List Char) : Option (ℚ × List Char) :=
  let (neg, cs1) := match cs with
    | '-' :: rest => (true, rest)
    | _ => (false, cs)
  let (intDigits, cs2) := takeDigits cs1
  if intDigits = [] then none
  else if intDigits.length > 1 ∧ intDigits.headI = '0' then none
  else
    -- fractional digits; a dot not followed by a digit is a syntax error
    let fracScan : Option (List Char × List Char) :=
      match cs2 with
      | '.' :: rest =>
        let (fd, rest2) := takeDigits rest
        if fd = [] then none else some (fd, rest2)
      | _ => some ([], cs2)
    match fracScan with
    | none => none
    | some (fracDigits, cs3) =>
      let mantNat : ℕ := digitsToNat intDigits * 10 ^ fracDigits.length + digitsToNat fracDigits
      let mant : ℤ := if neg then -(mantNat : ℤ) else (mantNat : ℤ)
      match cs3 with
      | 'e' :: rest | 'E' :: rest =>
        let (esign, rest1) : Bool × List Char := match rest with
          | '-' :: r => (true, r)
          | '+' :: r => (false, r)
          | _ => (false, rest)
        let (expDigits, rest2) := takeDigits rest1
        if expDigits = [] then none
        else
          let e := digitsToNat expDigits
          let q := if esign then mkRat mant (10 ^ (fracDigits.length + e))
                   else mkRat (mant * ((10 : ℤ)) ^ e) (10 ^ fracDigits.length)
          some (q, rest2)
      | _ => some (mkRat mant (10 ^ fracDigits.length), cs3)

mutual

/-- Parse one JSON value at the head of the input (fuel-indexed recursion). -/
def parseVal : Nat → List Char → Option (Json × List Char)
  | 0, _ => none
  | fuel + 1, cs =>
    match skipJsonWs cs with
    | 'n' :: 'u' :: 'l' :: 'l' :: rest => some (.null, rest)
    | 't' :: 'r' :: 'u' :: 'e' :: rest => some (.bool true, rest)
    | 'f' :: 'a' :: 'l' :: 's' :: 'e' :: rest => some (.bool false, rest)
    | '"' :: rest => (parseStrBody rest).map (fun p => (.str (String.mk p.1), p.2))
    | '[' :: rest =>
      (match skipJsonWs rest with
       | ']' :: rest2 => some (.arr [], rest2)
       | _ => (parseArrItems fuel rest).map (fun p => (.arr p.1, p.2)))
    | '{' :: rest =>
      (match skipJsonWs rest with
       | '}' :: rest2 => some (.obj [], rest2)
       | _ => (parseObjItems fuel rest).map (fun p => (.obj p.1, p.2)))
    | other => (parseJsonNum other).map (fun p => (.num p.1, p.2))

/-- Parse the comma-separated items of a non-empty JSON array, up to and
including the closing bracket. -/
def parseArrItems : Nat → List Char → Option (List Json × List Char)
  | 0, _ => none
  | fuel + 1, cs => do
    let (v, rest) ← parseVal fuel cs
    match skipJsonWs rest with
    | ',' :: rest2 => (parseArrItems fuel rest2).map (fun p => (v :: p.1, p.2))
    | ']' :: rest2 => some ([v], rest2)
    | _ => none

/-- Parse the comma-separated members of a non-empty JSON object, up to and
including the closing brace. -/
def parseObjItems : Nat → List Char → Option (List (String × Json) × List Char)
  | 0, _ => none
  | fuel + 1, cs =>
    match skipJsonWs cs with
    | '"' :: rest => do
      let (key, rest1) ← parseStrBody rest
      match skipJsonWs rest1 with
      | ':' :: rest2 => do
        let (v, rest3) ← parseVal fuel rest2
        match skipJsonWs rest3 with
        | ',' :: rest4 => (parseObjItems fuel rest4).map (fun p => ((String.mk key, v) :: p.1, p.2))
        | '}' :: rest4 => some ([(String.mk key, v)], rest4)
        | _ => none
      | _ => none
    | _ => none

end

/-- Model of `json.loads` on a character list: parse one value, allowing
surrounding whitespace, and require that the whole input is consumed. -/
def jsonParseL (cs : List Char) : Option Json :=
  let cs := pyStripL cs
  match parseVal (cs.length + 1) cs with
  | some (v, rest) => if skipJsonWs rest = [] then some v else none
  | none => none

/-! ### Structured-analysis schema (`services/llm.py`, pydantic models)

Validation models pydantic: required fields must be present with the declared
type, `Optional` fields accept `null` or absence, extra keys are ignored,
and `confidence` carries the bounds `ge=0.0, le=1.0`.  A JSON document whose
top level is not an object makes `AnalysisResult(**data)` raise `TypeError`,
which is distinct from a pydantic `ValidationError` (only the latter, and
`json.JSONDecodeError`, trigger the retry in `generate_analysis`). -/

structure SimilarNotice where
  notice_id : String
  score : ℚ
  title : Option String
  buyer : Option String
  cpv_codes : Option (List String)
  published_date : Option String
deriving DecidableEq

structure QualitativeAnalysis where
  risk_management : String
  sustainability_social_values : String
  transparency_fair_competition : String
  innovation_forward_thinking : String
deriving DecidableEq

structure Recommendation where
  decision : String
  rationale : String
deriving DecidableEq

structure AnalysisResult where
  similar_notices_ranked : List SimilarNotice
  overlap_summary : String
  qualitative_analysis : QualitativeAnalysis
  recommendation : Recommendation
  confidence : ℚ
  caveats : String
deriving DecidableEq

/-- Lookup in a decoded JSON object.  the Python `json.loads` builds a `dict`,
so a later duplicate key overwrites an earlier one: take the last match. -/
def dictGet (kvs : List (String × Json)) (k : String) : Option Json :=
  ((kvs.filter (fun p => p.1 = k)).getLast?).map (fun p => p.2)

/-- A required `str` field. -/
def getStr (kvs : List (String × Json)) (k : String) : Option String :=
  match dictGet kvs k with
  | some (.str s) => some s
  | _ => none

/-- A required `float` field (JSON integers also coerce to float). -/
def getNum (kvs : List (String × Json)) (k : String) : Option ℚ :=
  match dictGet kvs k with
  | some (.num q) => some q
  | _ => none

/-- An `Optional[str]` field: absent or `null` is `None`. -/
def getOptStr (kvs : List (String × Json)) (k : String) : Option (Option String) :=
  match dictGet kvs k with
  | none => some none
  | some .null => some none
  | some (.str s) => some (some s)
  | some _ => none

/-- An `Optional[List[str]]` field. -/
def getOptStrList (kvs : List (String × Json)) (k : String) : Option (Option (List String)) :=
  match dictGet kvs k with
  | none => some none
  | some .null => some none
  | some (.arr xs) =>
    Option.map (fun l => some l)
      (xs.mapM (fun j => match j with | .str s => some s | _ => none))
  | some _ => none

/-- The field checks of `SimilarNotice` on an already-matched object. -/
def validateNoticeObj (kvs : List (String × Json)) : Option SimilarNotice :=
  match getStr kvs "notice_id", getNum kvs "score", getOptStr kvs "title",
      getOptStr kvs "buyer", getOptStrList kvs "cpv_codes",
      getOptStr kvs "published_date" with
  | some nid, some sc, some t, some b, some cpv, some pd =>
    some ⟨nid, sc, t, b, cpv, pd⟩
  | _, _, _, _, _, _ => none

/-- Validate one element of `similar_notices_ranked` as a `SimilarNotice`. -/
def validateNotice (j : Json) : Option SimilarNotice :=
  match j with
  | .obj kvs => validateNoticeObj kvs
  | _ => none

/-- The field checks of `QualitativeAnalysis` on an already-matched object. -/
def validateQualObj (kvs : List (String × Json)) : Option QualitativeAnalysis :=
  match getStr kvs "risk_management", getStr kvs "sustainability_social_values",
      getStr kvs "transparency_fair_competition",
      getStr kvs "innovation_forward_thinking" with
  | some rm, some ss, some tf, some it => some ⟨rm, ss, tf, it⟩
  | _, _, _, _ => none

/-- Validate the `qualitative_analysis` sub-object. -/
def validateQual (j : Json) : Option QualitativeAnalysis :=
  match j with
  | .obj kvs => validateQualObj kvs
  | _ => none

/-- The field checks of `Recommendation` on an already-matched object. -/
def validateRecObj (kvs : List (String × Json)) : Option Recommendation :=
  match getStr kvs "decision", getStr kvs "rationale" with
  | some d, some r => some ⟨d, r⟩
  | _, _ => none

/-- Validate the `recommendation` sub-object. -/
def validateRec (j : Json) : Option Recommendation :=
  match j with
  | .obj kvs => validateRecObj kvs
  | _ => none

deriving instance DecidableEq for Except

/-- The errors `_parse_response` can raise: a JSON syntax error, a pydantic
validation error, or another exception (`TypeError` from `**data` on a
non-dict).  Only the first two are caught and retried. -/
inductive PErr where
  | jsonDecode : PErr
  | validation : PErr
  | typeErr : PErr
deriving DecidableEq

/-- The ranked-notices field: absent defaults to the empty list, otherwise a
JSON array of valid `SimilarNotice` objects is required. -/
def validateSnr (kvs : List (String × Json)) : Option (List SimilarNotice) :=
  match dictGet kvs "similar_notices_ranked" with
  | none => some []
  | some (.arr xs) => xs.mapM validateNotice
  | some _ => none

/-- The required `qualitative_analysis` field. -/
def validateQualField (kvs : List (String × Json)) : Option QualitativeAnalysis :=
  match dictGet kvs "qualitative_analysis" with
  | some v => validateQual v
  | none => none

/-- The required `recommendation` field. -/
def validateRecField (kvs : List (String × Json)) : Option Recommendation :=
  match dictGet kvs "recommendation" with
  | some v => validateRec v
  | none => none

/-- The pydantic field checks of `AnalysisResult` on a decoded JSON object:
all required fields present and typed, `confidence` within `[0, 1]`,
`similar_notices_ranked` defaulting to the empty list. -/
def validateFields (kvs : List (String × Json)) : Option AnalysisResult :=
  match validateSnr kvs, getStr kvs "overlap_summary", validateQualField kvs,
      validateRecField kvs, getNum kvs "confidence", getStr kvs "caveats" with
  | some snr, some ov, some qa, some rcm, some conf, some cav =>
    if 0 ≤ conf ∧ conf ≤ 1 then some ⟨snr, ov, qa, rcm, conf, cav⟩
    else none
  | _, _, _, _, _, _ => none

/-- Model of `AnalysisResult(**data)`: a non-object raises `TypeError`, an
object failing the field checks raises a pydantic `ValidationError`. -/
def validate (j : Json) : Except PErr AnalysisResult :=
  match j with
  | .obj kvs =>
    match validateFields kvs with
    | some r => .ok r
    | none => .error .validation
  | _ => .error .typeErr

/-! ### Response parsing (`OllamaClient._parse_response`) -/

/-- The three-backquote code-fence marker. -/
def fenceChars : List Char := ['`', '`', '`']

/-- Python `text.startswith("```")`. -/
def startsWithFence : List Char → Bool
  | '`' :: '`' :: '`' :: _ => true
  | _ => false

/-- The markdown-fence removal of `_parse_response`: split into lines, drop
the first line when it starts with a fence, drop the last line when it is a
bare fence (after stripping), and re-join. -/
def stripFencesL (cs : List Char) : List Char :=
  let lines := splitOnNl cs
  let lines := match lines with
    | l :: rest => if startsWithFence l then rest else lines
    | [] => lines
  let lines := match lines.getLast? with
    | some l => if pyStripL l = fenceChars then lines.dropLast else lines
    | none => lines
  joinNl lines

/-- The cleaned response text handed to `json.loads`: stripped, then
de-fenced when it starts with a code fence. -/
def responseBody (s : String) : List Char :=
  let cs := pyStripL s.toList
  if startsWithFence cs then stripFencesL cs else cs

/-- Model of `OllamaClient._parse_response`: clean the text, decode JSON,
validate against the `AnalysisResult` schema. -/
def parse_response (s : String) : Except PErr AnalysisResult :=
  match jsonParseL (responseBody s) with
  | none => .error .jsonDecode
  | some j => validate j

/-! ### Retry logic (`OllamaClient.generate_analysis`) and the
`analyze_draft` fallback (`src/backend/main.py`, lines 179-226)

The generative backend is modelled as a total function from prompt to
response text; transport failures are outside the scope of the claims
settled here (they take the same `except Exception` path in `main.py` as a
terminal validation failure). -/

/-- Errors caught by `except (ValidationError, json.JSONDecodeError)`:
exactly these trigger the single strict retry. -/
def retryable : PErr → Bool
  | .jsonDecode => true
  | .validation => true
  | .typeErr => false

/-- The suffix `_create_strict_json_prompt` appends to the original prompt. -/
def strictSuffix : String :=
  "\n\nCRITICAL: Your response must be ONLY valid JSON. No markdown, no code blocks, no explanations.\nStart your response with \x7b and end with \x7d.\nEnsure all strings are properly quoted and all JSON syntax is correct."

/-- Model of `OllamaClient._create_strict_json_prompt`. -/
def create_strict_json_prompt (original_prompt : String) : String :=
  original_prompt ++ strictSuffix

/-- Model of `OllamaClient.generate_analysis`: call the backend, parse; on a
caught parse failure, retry once with the strict prompt; a second failure
(or an uncaught error kind) is terminal for the generative path.  The second
component records the prompts sent to the backend, in order. -/
def generate_analysis (backend : String → String) (prompt : String) :
    Except PErr AnalysisResult × List String :=
  match parse_response (backend prompt) with
  | .ok r => (.ok r, [prompt])
  | .error e =>
    if retryable e then
      let sp := create_strict_json_prompt prompt
      (parse_response (backend sp), [prompt, sp])
    else (.error e, [prompt])

/-- The analysis value stored and returned by `analyze_draft`: either the
dumped `AnalysisResult` or the literal fallback dict built in its
`except` branch (which also carries an `error` key). -/
structure AnalysisOut where
  errorMsg : Option String
  similar_notices_ranked : List SimilarNotice
  overlap_summary : String
  qualitative_analysis : QualitativeAnalysis
  recommendation : Recommendation
  confidence : ℚ
  caveats : String
deriving DecidableEq

/-- Rendering of `str(e)` for the modelled exception kinds.  The concrete
Python message text varies with the input; what matters for the claims is
that it is a fixed non-empty descriptor of the failure. -/
def errStr : PErr → String
  | .jsonDecode => "Expecting value in model response"
  | .validation => "validation error for AnalysisResult"
  | .typeErr => "argument unpacking failed on non-dict response"

/-- The fallback analysis dict built in the `except` branch of
`analyze_draft` (`main.py`, lines 197-213). -/
def fallbackAnalysis (e : PErr) : AnalysisOut where
  errorMsg := some (errStr e)
  similar_notices_ranked := []
  overlap_summary := "LLM analysis unavailable"
  qualitative_analysis :=
    ⟨"Not analyzed", "Not analyzed", "Not analyzed", "Not analyzed"⟩
  recommendation := ⟨"review_required", "LLM analysis failed"⟩
  confidence := 0
  caveats := "Analysis could not be completed: " ++ errStr e

/-- The LLM stage of `analyze_draft`: the generative result when it
succeeds, otherwise the fallback analysis for the raised error. -/
def analyze_llm_stage (backend : String → String) (prompt : String) : AnalysisOut :=
  match (generate_analysis backend prompt).1 with
  | .ok r =>
    { errorMsg := none
      similar_notices_ranked := r.similar_notices_ranked
      overlap_summary := r.overlap_summary
      qualitative_analysis := r.qualitative_analysis
      recommendation := r.recommendation
      confidence := r.confidence
      caveats := r.caveats }
  | .error e => fallbackAnalysis e

/-! ### Deterministic mock analysis (`app/llm_service.py`, `_mock_analysis`)

Keyword tests are Python substring membership (`kw in content_lower`) on the
lower-cased draft content; float arithmetic is modelled exactly over `ℚ`. -/

/-- Python `kw in text` (substring containment). -/
def containsKw (text : String) (kw : String) : Bool :=
  decide (kw.toList <:+: text.toList)

/-- `sum(1 for kw in kws if kw in text)`. -/
def kwMatches (kws : List String) (text : String) : Nat :=
  (kws.filter (fun k => containsKw text k)).length

/-- Risk keywords of `_mock_analysis`. -/
def riskKeywords : List String := ["new", "untested", "experimental", "prototype"]

/-- Sustainability keywords of `_mock_analysis`. -/
def sustainabilityKeywords : List String :=
  ["sustainable", "eco", "green", "renewable", "environment"]

/-- Innovation keywords of `_mock_analysis`. -/
def innovationKeywords : List String := ["innovative", "ai", "advanced", "smart", "modern"]

/-- `min(sum(matches) * 0.15 + 0.4, 1.0)` on the lower-cased content. -/
def risk_score (draft_content : String) : ℚ :=
  min ((kwMatches riskKeywords (pyLower draft_content) : ℚ) * (15/100) + 4/10) 1

/-- `min(sum(matches) * 0.2 + 0.3, 1.0)` on the lower-cased content. -/
def sustainability_score (draft_content : String) : ℚ :=
  min ((kwMatches sustainabilityKeywords (pyLower draft_content) : ℚ) * (2/10) + 3/10) 1

/-- `min(0.6 + len(similar_notices) * 0.03, 1.0)`. -/
def competition_score (numSimilar : Nat) : ℚ :=
  min ((6/10) + (numSimilar : ℚ) * (3/100)) 1

/-- `min(sum(matches) * 0.15 + 0.5, 1.0)` on the lower-cased content. -/
def innovation_score (draft_content : String) : ℚ :=
  min ((kwMatches innovationKeywords (pyLower draft_content) : ℚ) * (15/100) + 5/10) 1

/-- The three-level label of `_mock_analysis.get_level`. -/
def get_level (score : ℚ) : String :=
  if score ≥ 3/4 then "High"
  else if score ≥ 1/2 then "Medium"
  else "Low"

/-- Python `round(x, 2)` on the exact values arising here (all of which are
integer multiples of `1/100`, so every rounding convention agrees). -/
def pyRound2 (q : ℚ) : ℚ := (Int.floor (q * 100 + 1/2) : ℚ) / 100

/-- One scored dimension of the mock analysis. -/
structure DimAssessment where
  score : ℚ
  level : String
  description : String
deriving DecidableEq

/-- The dict returned by `_mock_analysis`. -/
structure MockAnalysis where
  risk : DimAssessment
  sustainability : DimAssessment
  competition : DimAssessment
  innovation : DimAssessment
  recommendation : String
deriving DecidableEq

/-- Model of `LLMService._mock_analysis`. -/
def mock_analysis (draft_content : String) (similar_notices : List String) : MockAnalysis :=
  let rs := risk_score draft_content
  let ss := sustainability_score draft_content
  let cs := competition_score similar_notices.length
  let is_ := innovation_score draft_content
  { risk :=
      { score := pyRound2 rs
        level := get_level rs
        description := "Based on content analysis, the risk level is " ++
          pyLower (get_level rs) ++
          ". The draft contains elements that may require careful consideration." }
    sustainability :=
      { score := pyRound2 ss
        level := get_level ss
        description := "The sustainability score is " ++ pyLower (get_level ss) ++
          ". Consider incorporating more eco-friendly practices." }
    competition :=
      { score := pyRound2 cs
        level := get_level cs
        description := "Competition level is " ++ pyLower (get_level cs) ++
          " based on " ++ toString similar_notices.length ++
          " similar tenders found in the database." }
    innovation :=
      { score := pyRound2 is_
        level := get_level is_
        description := "The innovation aspect is rated as " ++ pyLower (get_level is_) ++
          ". The draft shows potential for technological advancement." }
    recommendation := "Based on the analysis, this draft shows promise with a competition level of " ++
      pyLower (get_level cs) ++
      ". Consider enhancing the sustainability aspects and addressing identified risks. The innovation potential is " ++
      pyLower (get_level is_) ++ ", which could be a differentiating factor." }

/-! ### Fallback embedding and dense search (`app/vector_store.py`)

`_simple_embedding` builds a 100-entry vector: character-frequency buckets
over the 50-character prefix of the lower-cased text, the word count at
index 50, keyword presence flags at indices 60-70, then L2-normalisation
guarded by `norm > 0`.  The pre-normalisation vector is exact over `ℚ`;
the normalised vector lives in `ℝ` (the norm is a square root). -/

/-- Keyword list of `_simple_embedding`. -/
def embeddingKeywords : List String :=
  ["sustainable", "ai", "cloud", "smart", "cyber", "mobile",
   "renewable", "medical", "blockchain", "data", "infrastructure"]

/-- `ord(char) % 100` as an index. -/
def charIdx (c : Char) : Fin 100 := ⟨c.toNat % 100, Nat.mod_lt _ (by norm_num)⟩

/-- The character-frequency pass: `embedding[ord(c) % 100] += 1.0` for each
character of the prefix. -/
def bumpChars (v : Fin 100 → ℚ) : List Char → (Fin 100 → ℚ)
  | [] => v
  | c :: cs => bumpChars (Function.update v (charIdx c) (v (charIdx c) + 1)) cs

/-- `len(text.split())`: the number of maximal non-whitespace runs. -/
def countWordsAux : Bool → List Char → Nat
  | _, [] => 0
  | inWord, c :: cs =>
    if isPyWs c then countWordsAux false cs
    else (if inWord then 0 else 1) + countWordsAux true cs

/-- Word count of a character list (Python `len(s.split())`). -/
def countWords (cs : List Char) : Nat := countWordsAux false cs

/-- The keyword pass: `embedding[60 + i] = 1.0` for each present keyword. -/
def setKeywordFlags (textLower : String) : (Fin 100 → ℚ) → List (Nat × String) → (Fin 100 → ℚ)
  | v, [] => v
  | v, (i, kw) :: rest =>
    let v := if containsKw textLower kw then
        Function.update v ⟨(60 + i) % 100, Nat.mod_lt _ (by norm_num)⟩ 1
      else v
    setKeywordFlags textLower v rest

/-- The pre-normalisation embedding vector of `_simple_embedding`. -/
def preEmbed (text : String) : Fin 100 → ℚ :=
  let textLower := pyLower text
  let v : Fin 100 → ℚ := fun _ => 0
  let v := bumpChars v (textLower.toList.take 50)
  let v := Function.update v ⟨50, by norm_num⟩ (countWords textLower.toList)
  setKeywordFlags textLower v embeddingKeywords.enum

/-- Squared L2 norm of a rational vector. -/
def normSqQ (v : Fin 100 → ℚ) : ℚ := ∑ i, v i ^ 2

/-- Model of `_simple_embedding`: the pre-normalisation vector divided by
its L2 norm when that norm is positive, unchanged otherwise. -/
noncomputable def simple_embedding (text : String) : Fin 100 → ℝ :=
  let v := preEmbed text
  let norm : ℝ := Real.sqrt ((normSqQ v : ℚ) : ℝ)
  if 0 < norm then (fun i => (v i : ℝ) / norm) else (fun i => (v i : ℝ))

/-- The state of `VectorStore`: the indexed notice texts and their stored
embedding vectors (appended in lock step by `add_notice` and
`_initialize_sample_data`). -/
structure VectorStore where
  notices : List String
  embeddings : List (Fin 100 → ℝ)

/-- `np.dot` on two embedding vectors. -/
noncomputable def dotR (v w : Fin 100 → ℝ) : ℝ := ∑ i, v i * w i

/-- The `(index, similarity)` list built by `VectorStore.search`. -/
noncomputable def VectorStore.similarities (s : VectorStore) (query : String) :
    List (Nat × ℝ) :=
  (s.embeddings.enum).map (fun p => (p.1, dotR (simple_embedding query) p.2))

/-- Python `similarities.sort(key=lambda x: x[1], reverse=True)`.  The Python
sort is stable, and on pairs with pairwise-distinct first components a stable
descending sort coincides with the unique sort by the lexicographic order
(score descending, then original index ascending), which is how it is
modelled here. -/
noncomputable def pySortDesc (xs : List (Nat × ℝ)) : List (Nat × ℝ) :=
  xs.mergeSort (fun a b => decide (b.2 < a.2 ∨ (a.2 = b.2 ∧ a.1 ≤ b.1)))

/-- The sorted, truncated `(index, similarity)` ranking of
`VectorStore.search` (`similarities[:min(top_k, len(similarities))]`). -/
noncomputable def VectorStore.searchRanked (s : VectorStore) (query : String)
    (top_k : Nat) : List (Nat × ℝ) :=
  let sims := s.similarities query
  (pySortDesc sims).take (min top_k sims.length)

/-- Model of `VectorStore.search`: empty-store guard, then the ranked
results rendered as `(notice, similarity)` pairs. -/
noncomputable def VectorStore.search (s : VectorStore) (query : String)
    (top_k : Nat) : List (String × ℝ) :=
  if s.notices = [] then []
  else (s.searchRanked query top_k).map (fun p => (s.notices.getD p.1 "", p.2))

/-! ### TF-IDF ranking step of `analyze_draft` (`src/backend/main.py`,
lines 160-177)

The cosine-similarity scores produced by scikit-learn are taken as input
(one rational per indexed notice, in corpus order); the modelled part is the
ranking `np.argsort(similarities)[::-1][:top_k]`.  `np.argsort`'s default
`kind` is an introsort, which sorts ascending by score but is NOT stable:
only on partitions shorter than 16 elements does it run the (stable)
insertion sort, so the order of equal scores is unspecified in general.
The model below determinizes the ties as the stable ascending sort; no
universal theorem about the TF-IDF path relies on that tie order — only on
ascending score order (true of every argsort output) — and the one tie-order
fact stated below is stated at a concrete two-element input, where the
source's insertion-sort path makes the real output determined and equal to
the model's. -/

/-- `np.argsort`, keeping the scores alongside the indices: an ascending
sort of `enumerate(similarities)` by score, with ties determinized in
corpus order (faithful to the source only where numpy takes its
insertion-sort path, i.e. on arrays shorter than 16 elements). -/
def pyArgsortWithScores (sims : List ℚ) : List (Nat × ℚ) :=
  sims.enum.mergeSort (fun a b => decide (a.2 < b.2 ∨ (a.2 = b.2 ∧ a.1 ≤ b.1)))

/-- `np.argsort(similarities)[::-1][:top_k]`, with scores attached: the
`(corpus index, score)` ranking that `analyze_draft` turns into its
`retrieved_notices` list. -/
def tfidfTop (sims : List ℚ) (top_k : Nat) : List (Nat × ℚ) :=
  ((pyArgsortWithScores sims).reverse).take top_k

/-! ### Dataset cleaning (`src/backend/scripts/clean_notices.py`)

Input records are decoded JSON objects.  Python `None` and JSON `null` are
conflated as `Json.null`; `dict.get` returns `null` for a missing key.
The `str()` renderings of non-string scalars and containers are
approximated (`pyStrJ`); every property proved below is quantified over all
strings, so nothing depends on the exact rendering.  Diagnostic warning
strings, which only affect stdout, are not modelled. -/

/-- Python truthiness of a decoded JSON value. -/
def pyFalsy : Json → Bool
  | .null => true
  | .bool b => !b
  | .num q => decide (q = 0)
  | .str s => s = ""
  | .arr xs => xs.isEmpty
  | .obj kvs => kvs.isEmpty

/-- Python `a or b`. -/
def pyOr (a b : Json) : Json := if pyFalsy a then b else a

/-- Python `n.get(key)` (with `None` for a missing key). -/
def pyGet (n : List (String × Json)) (k : String) : Json :=
  (dictGet n k).getD .null

/-- Python `str()` of a decoded JSON value.  String values are exact; other
renderings are simple approximations (see the section comment). -/
def pyStrJ : Json → String
  | .str s => s
  | .null => "None"
  | .bool true => "True"
  | .bool false => "False"
  | .num q => toString q.num ++ (if q.den = 1 then "" else "/" ++ toString q.den)
  | .arr _ => "[...]"
  | .obj _ => "(dict)"

/-- Python `str(x).strip()` as a `String`. -/
def pyStripS (s : String) : String := String.mk (pyStripL s.toList)

/-- `text.replace("\r\n", "\n").replace("\r", "\n")`. -/
def normNewlines : List Char → List Char
  | [] => []
  | '\r' :: '\n' :: rest => '\n' :: normNewlines rest
  | '\r' :: rest => '\n' :: normNewlines rest
  | c :: rest => c :: normNewlines rest

/-- `re.sub(r"\n{3,}", "\n\n", text)`: a maximal newline run of length
three or more collapses to two. -/
def collapseNlRuns : Nat → List Char → List Char
  | 0, cs => cs
  | _, [] => []
  | fuel + 1, c :: cs =>
    if c = '\n' then
      let run := 1 + (cs.takeWhile (fun x => x = '\n')).length
      let rest := cs.dropWhile (fun x => x = '\n')
      (if run ≥ 3 then ['\n', '\n'] else List.replicate run '\n') ++ collapseNlRuns fuel rest
    else c :: collapseNlRuns fuel cs

/-- A space-or-tab character (the class `[ \t]`). -/
def isSpTab (c : Char) : Bool := c = ' ' ∨ c = '\t'

/-- `re.sub(r"[ \t]{2,}", " ", text)`: a maximal space/tab run of length two
or more collapses to a single space; a lone space or tab is unchanged. -/
def collapseSpTabRuns : Nat → List Char → List Char
  | 0, cs => cs
  | _, [] => []
  | fuel + 1, c :: cs =>
    if isSpTab c then
      let run := 1 + (cs.takeWhile isSpTab).length
      let rest := cs.dropWhile isSpTab
      (if run ≥ 2 then [' '] else [c]) ++ collapseSpTabRuns fuel rest
    else c :: collapseSpTabRuns fuel cs

/-- Model of `clean_whitespace`. -/
def clean_whitespace (s : String) : String :=
  let cs := normNewlines s.toList
  let cs := collapseNlRuns cs.length cs
  let cs := collapseSpTabRuns cs.length cs
  String.mk (pyStripL cs)

/-- `cut.rsplit(" ", 1)[0]`: everything before the last space. -/
def beforeLastSpace (cs : List Char) : List Char :=
  (((cs.reverse.dropWhile (fun c => c ≠ ' ')).drop 1)).reverse

/-- Model of `make_excerpt`.  The source file writes the ellipsis marker as
the UTF-8 bytes of the character `…`. -/
def make_excerpt (description_raw : String) (max_len : Nat) : String :=
  let raw := clean_whitespace description_raw
  if raw = "" then ""
  else if raw.toList.length ≤ max_len then raw
  else
    let cut := raw.toList.take max_len
    let cut := if ' ' ∈ cut then beforeLastSpace cut else cut
    String.mk (pyStripL cut) ++ "…"

/-- The literal `/notices/` of the notice-id regex. -/
def noticesPat : List Char := "/notices/".toList

/-- `re.search(r"/notices/([^/?#]+)", url)`: the first position where the
literal matches and is followed by at least one character outside
`/?#` yields that character run. -/
def findNoticesId : List Char → Option String
  | [] => none
  | c :: rest =>
    if noticesPat.isPrefixOf (c :: rest) then
      let after := (c :: rest).drop noticesPat.length
      let seg := after.takeWhile (fun ch => ch ≠ '/' ∧ ch ≠ '?' ∧ ch ≠ '#')
      if seg = [] then findNoticesId rest else some (String.mk seg)
    else findNoticesId rest

/-- Model of `normalize_notice_id`. -/
def normalize_notice_id (n : List (String × Json)) : String :=
  let nid := pyStripS (pyStrJ (pyOr (pyGet n "notice_id") (.str "")))
  if nid ≠ "" then nid
  else
    let url := pyStripS (pyStrJ (pyOr (pyGet n "url") (.str "")))
    match findNoticesId url.toList with
    | some m => m
    | none => ""

/-- A regex word character (`\w`), restricted to ASCII. -/
def isWordChar (c : Char) : Bool := c.isAlphanum ∨ c = '_'

/-- Maximal word-character runs of a character list (accumulator-based). -/
def wordRunsAux : List Char → List Char → List (List Char)
  | acc, [] => if acc = [] then [] else [acc.reverse]
  | acc, c :: rest =>
    if isWordChar c then wordRunsAux (c :: acc) rest
    else if acc = [] then wordRunsAux [] rest
    else acc.reverse :: wordRunsAux [] rest

/-- Maximal word-character runs of a character list. -/
def wordRuns (cs : List Char) : List (List Char) := wordRunsAux [] cs

/-- `CPV_RE.findall(s)` with `CPV_RE = r"\b(\d{8})\b"`: the word-boundary
anchors make a match exactly a maximal word-character run that consists of
eight digits. -/
def cpvFindall (s : String) : List String :=
  ((wordRuns s.toList).filter (fun r => r.length = 8 ∧ r.all Char.isDigit)).map
    (fun r => String.mk r)

/-- `re.fullmatch(r"\d{8}", c)`: exactly eight digits. -/
def is8Digits (s : String) : Bool := s.toList.length = 8 ∧ s.toList.all Char.isDigit

/-- Python `str.isdigit` (ASCII digits). -/
def pyIsDigit (s : String) : Bool := s.toList ≠ [] ∧ s.toList.all Char.isDigit

/-- Python string comparison, as used by `sorted` (code-point
lexicographic `≤` on the character lists, expressed as the negation of the
reverse strict order). -/
def pySortedRel (a b : String) : Prop := ¬ (b.toList < a.toList)

instance : DecidableRel pySortedRel :=
  fun a b => inferInstanceAs (Decidable (¬ (b.toList < a.toList)))

/-- Python `sorted(set(xs))` for strings.  `sorted` is modelled by the
structurally recursive insertion sort, which agrees with any stable sort on
the duplicate-free input produced by `dedup`. -/
def sortedDedupStr (xs : List String) : List String :=
  (xs.dedup).insertionSort pySortedRel

/-- Model of `normalize_cpv_codes`. -/
def normalize_cpv_codes (n : List (String × Json)) : List String :=
  let cpv := pyGet n "cpv_codes"
  let codes : List String :=
    match cpv with
    | .arr xs =>
      xs.foldl (fun acc x =>
        match x with
        | .null => acc
        | _ =>
          let s := pyStripS (pyStrJ x)
          let found := cpvFindall s
          if found ≠ [] then acc ++ found
          else if pyIsDigit s then acc ++ [s]
          else acc) []
    | .str s =>
      let found := cpvFindall s
      if found = [] ∧ pyIsDigit (pyStripS s) then [pyStripS s]
      else found
    | _ => []
  sortedDedupStr (codes.filter is8Digits)

/-- `YYYY-MM-DD` shape (`DATE_RE = r"^\d{4}-\d{2}-\d{2}$"`). -/
def isIsoShape (s : String) : Bool :=
  match s.toList with
  | [a, b, c, d, '-', e, f, '-', g, h] =>
    a.isDigit ∧ b.isDigit ∧ c.isDigit ∧ d.isDigit ∧ e.isDigit ∧ f.isDigit ∧
      g.isDigit ∧ h.isDigit
  | _ => false

/-- `^(\d{4})[./](\d{2})[./](\d{2})$` with its three capture groups. -/
def matchYmdSep (cs : List Char) : Option (List Char × List Char × List Char) :=
  match cs with
  | [a, b, c, d, s1, e, f, s2, g, h] =>
    if (s1 = '.' ∨ s1 = '/') ∧ (s2 = '.' ∨ s2 = '/') ∧ a.isDigit ∧ b.isDigit ∧
        c.isDigit ∧ d.isDigit ∧ e.isDigit ∧ f.isDigit ∧ g.isDigit ∧ h.isDigit
    then some ([a, b, c, d], [e, f], [g, h])
    else none
  | _ => none

/-- `^(\d{2})[./](\d{2})[./](\d{4})$` with its three capture groups. -/
def matchDmySep (cs : List Char) : Option (List Char × List Char × List Char) :=
  match cs with
  | [a, b, s1, c, d, s2, e, f, g, h] =>
    if (s1 = '.' ∨ s1 = '/') ∧ (s2 = '.' ∨ s2 = '/') ∧ a.isDigit ∧ b.isDigit ∧
        c.isDigit ∧ d.isDigit ∧ e.isDigit ∧ f.isDigit ∧ g.isDigit ∧ h.isDigit
    then some ([a, b], [c, d], [e, f, g, h])
    else none
  | _ => none

/-- Model of `normalize_date`: keep an already ISO-shaped date, reorder the
two accepted separator variants, otherwise return the empty string. -/
def normalize_date (j : Json) : String :=
  if pyFalsy j then ""
  else
    let t := pyStripS (pyStrJ j)
    if isIsoShape t then t
    else
      match matchYmdSep t.toList with
      | some (y, m, d) => String.mk (y ++ '-' :: (m ++ '-' :: d))
      | none =>
        match matchDmySep t.toList with
        | some (d, m, y) => String.mk (y ++ '-' :: (m ++ '-' :: d))
        | none => ""

/-- Non-overlapping left-to-right replacement of a non-empty pattern
(Python `str.replace`). -/
def replaceAllAux (pat rep : List Char) : Nat → List Char → List Char
  | 0, cs => cs
  | _, [] => []
  | fuel + 1, c :: cs =>
    if pat.isPrefixOf (c :: cs) then rep ++ replaceAllAux pat rep fuel ((c :: cs).drop pat.length)
    else c :: replaceAllAux pat rep fuel cs

/-- Python `s.replace(pat, rep)` for a non-empty pattern. -/
def replaceAllL (pat rep cs : List Char) : List Char :=
  replaceAllAux pat rep cs.length cs

/-- Python `float()` on a string of digits and dots: at most one dot and at
least one digit. -/
def pyFloatDigitsDots (cs : List Char) : Option ℚ :=
  if cs.count '.' = 0 then
    if cs = [] then none else some (mkRat (digitsToNat cs) 1)
  else if cs.count '.' = 1 ∧ cs.any Char.isDigit then
    let intPart := cs.takeWhile (fun c => c ≠ '.')
    let fracPart := (cs.dropWhile (fun c => c ≠ '.')).drop 1
    some (mkRat (digitsToNat intPart * 10 ^ fracPart.length + digitsToNat fracPart)
      (10 ^ fracPart.length))
  else none

/-- Model of `normalize_estimated_value`.  Python `bool` is an `int`
subclass, so a boolean input coerces to `1.0`/`0.0`. -/
def normalize_estimated_value (n : List (String × Json)) : Option ℚ :=
  let v := pyGet n "estimated_value_nok"
  let needAlt : Bool := match v with
    | .null => true
    | .str "" => true
    | _ => false
  let v := if needAlt then pyOr (pyGet n "estimated_value") (pyGet n "value_nok") else v
  let stillMissing : Bool := match v with
    | .null => true
    | .str "" => true
    | _ => false
  if stillMissing then none
  else
    match v with
    | .num q => some q
    | .bool b => some (if b then 1 else 0)
    | _ =>
      let s := pyStripL (pyStrJ v).toList
      let s := replaceAllL "NOK".toList [] s
      let s := replaceAllL "kr".toList [] s
      let s := replaceAllL " ".toList [] s
      let s := replaceAllL ",".toList ".".toList s
      let s := s.filter (fun c => c.isDigit ∨ c = '.')
      if s = [] then none
      else pyFloatDigitsDots s

/-- One record emitted by the cleaning step. -/
structure CleanedNotice where
  notice_id : String
  url : String
  title : String
  buyer : String
  cpv_codes : List String
  published_date : String
  deadline : String
  estimated_value_nok : Option ℚ
  procedure : String
  duration : String
  description_raw : String
  description_excerpt : String
  tags : Option (List String)
deriving DecidableEq

/-- Model of `clean_record` (the emitted record; warnings are diagnostics
only and are not modelled). -/
def clean_record (n : List (String × Json)) (excerpt_max : Nat) : CleanedNotice :=
  let notice_id := normalize_notice_id n
  let url := pyStripS (pyStrJ (pyOr (pyGet n "url") (.str "")))
  let title := clean_whitespace (pyStrJ (pyOr (pyGet n "title") (.str "")))
  let buyer := clean_whitespace (pyStrJ (pyOr (pyOr (pyGet n "buyer") (pyGet n "buyer_name")) (.str "")))
  let cpv_codes := normalize_cpv_codes n
  let published_date := normalize_date (pyOr (pyGet n "published_date") (pyGet n "published_at"))
  let deadline := normalize_date (pyOr (pyGet n "deadline") (pyGet n "deadline_at"))
  let procedure := clean_whitespace (pyStrJ (pyOr (pyGet n "procedure") (.str "")))
  let duration := clean_whitespace (pyStrJ (pyOr (pyOr (pyGet n "duration") (pyGet n "contract_duration")) (.str "")))
  let description_raw := clean_whitespace (pyStrJ (pyOr (pyOr (pyGet n "description_raw") (pyGet n "description")) (.str "")))
  let description_excerpt := clean_whitespace (pyStrJ (pyOr (pyGet n "description_excerpt") (.str "")))
  let description_excerpt :=
    if description_excerpt = "" then make_excerpt description_raw excerpt_max
    else description_excerpt
  let estimated_value_nok := normalize_estimated_value n
  let tags : Option (List String) := match pyGet n "tags" with
    | .arr xs => some (sortedDedupStr ((xs.map (fun t => pyStripS (pyStrJ t))).filter (fun s => s ≠ "")))
    | _ => none
  { notice_id := notice_id
    url := url
    title := title
    buyer := buyer
    cpv_codes := cpv_codes
    published_date := published_date
    deadline := deadline
    estimated_value_nok := estimated_value_nok
    procedure := procedure
    duration := duration
    description_raw := description_raw
    description_excerpt := description_excerpt
    tags := tags }

/-- The record loop of `main`: skip non-objects, clean, skip records whose
non-empty identifier was already seen, accumulate in input order. -/
def cleanMainGo (excerpt_max : Nat) : List String → List CleanedNotice → List Json → List CleanedNotice
  | _, acc, [] => acc
  | seen, acc, r :: rest =>
    match r with
    | .obj kvs =>
      let c := clean_record kvs excerpt_max
      let nid := c.notice_id
      if nid ≠ "" ∧ nid ∈ seen then cleanMainGo excerpt_max seen acc rest
      else cleanMainGo excerpt_max (if nid ≠ "" then seen ++ [nid] else seen) (acc ++ [c]) rest
    | _ => cleanMainGo excerpt_max seen acc rest

/-- The cleaned record list written by `main` for a decoded input dataset
and a `--excerpt-max` value. -/
def cleanMain (records : List Json) (excerpt_max : Nat) : List CleanedNotice :=
  cleanMainGo excerpt_max [] [] records

/-! ### Concrete inputs used by witnesses and counterexamples -/

/-- The response text used to exhibit that the schema does not restrict the
decision tag: a schema-valid analysis whose decision is `escalate`. -/
def freeDecisionResponse : String :=
  "\x7b\"overlap_summary\": \"s\", \"qualitative_analysis\": \x7b\"risk_management\": \"a\", \"sustainability_social_values\": \"b\", \"transparency_fair_competition\": \"c\", \"innovation_forward_thinking\": \"d\"\x7d, \"recommendation\": \x7b\"decision\": \"escalate\", \"rationale\": \"r\"\x7d, \"confidence\": 0.5, \"caveats\": \"cv\"\x7d"

/-- The `AnalysisResult` that `freeDecisionResponse` validates to. -/
def freeDecisionResult : AnalysisResult :=
  { similar_notices_ranked := []
    overlap_summary := "s"
    qualitative_analysis := ⟨"a", "b", "c", "d"⟩
    recommendation := ⟨"escalate", "r"⟩
    confidence := mkRat 1 2
    caveats := "cv" }

/-- A two-notice store used to witness C1 and the dense half of C4. -/
noncomputable def twoNoticeStore : VectorStore :=
  { notices := ["alpha", "beta"]
    embeddings := [simple_embedding "alpha", simple_embedding "beta"] }

/-- The cleaning-step input record exhibiting the word-boundary failure:
no excerpt is supplied and the description is a single 15-character word. -/
def c9CexRecord : Json :=
  .obj [("notice_id", .str "x1"), ("description_raw", .str "abcdefghijklmno")]

/-- The record cleaned from `\x7b"cpv_codes": "45000000 12345678"\x7d`. -/
def c9WitnessCleaned : CleanedNotice :=
  { notice_id := ""
    url := ""
    title := ""
    buyer := ""
    cpv_codes := ["12345678", "45000000"]
    published_date := ""
    deadline := ""
    estimated_value_nok := none
    procedure := ""
    duration := ""
    description_raw := ""
    description_excerpt := ""
    tags := none }

/-! ## Claim theorems -/

theorem splitOnNl_ne_nil (cs : List Char) : splitOnNl cs ≠ [] := by
  cases cs with
  | nil => simp [splitOnNl]
  | cons c rest =>
    rw [splitOnNl]
    split <;> simp

theorem exists_cons_splitOnNl (cs : List Char) :
    ∃ l ls, splitOnNl cs = l :: ls := by
  cases h : splitOnNl cs with
  | nil => exact absurd h (splitOnNl_ne_nil cs)
  | cons l ls => exact ⟨l, ls, rfl⟩

theorem splitOnNl_append (a b : List Char) :
    splitOnNl (a ++ '\n' :: b) = splitOnNl a ++ splitOnNl b := by
  induction a with
  | nil => simp [splitOnNl]
  | cons c a ih =>
    obtain ⟨l, ls, hl⟩ := exists_cons_splitOnNl a
    by_cases hc : c = '\n'
    · subst hc
      simp only [List.cons_append, splitOnNl, if_pos rfl, List.append_eq]
      rw [ih]
      rfl
    · simp only [List.cons_append, splitOnNl, if_neg hc, List.append_eq]
      rw [ih, hl]
      simp

theorem joinNl_splitOnNl (cs : List Char) : joinNl (splitOnNl cs) = cs := by
  induction cs with
  | nil => simp [splitOnNl, joinNl]
  | cons c rest ih =>
    obtain ⟨l, ls, hl⟩ := exists_cons_splitOnNl rest
    rw [hl] at ih
    by_cases hc : c = '\n'
    · subst hc
      rw [splitOnNl]
      simp only [if_pos rfl, hl]
      simpa [joinNl] using ih
    · rw [splitOnNl]
      simp only [if_neg hc, hl]
      cases ls with
      | nil => simpa [joinNl] using ih
      | cons l2 ls2 => simpa [joinNl] using ih

/-- C5: for every document text that contains the keywords `sustainable`,
`eco`, `green` and no other sustainability-rubric keyword, the fallback
analyzer computes sustainability score `min(0.3 + 3 * 0.2, 1.0) = 0.9` and,
since `0.9 ≥ 0.75`, labels it `High`; in general `get_level` maps a score to
`High` when it is at least `0.75`, `Medium` when it is at least `0.5`, and
`Low` otherwise. -/
theorem c5_mock_sustainability_high (content : String) (similar : List String)
    (h1 : containsKw (pyLower content) "sustainable" = true)
    (h2 : containsKw (pyLower content) "eco" = true)
    (h3 : containsKw (pyLower content) "green" = true)
    (h4 : containsKw (pyLower content) "renewable" = false)
    (h5 : containsKw (pyLower content) "environment" = false) :
    sustainability_score content = 9/10 ∧
    (mock_analysis content similar).sustainability.level = "High" ∧
    (∀ q : ℚ, (3/4 ≤ q → get_level q = "High") ∧
      (1/2 ≤ q → q < 3/4 → get_level q = "Medium") ∧
      (q < 1/2 → get_level q = "Low")) := by
  have hm : kwMatches sustainabilityKeywords (pyLower content) = 3 := by
    simp [kwMatches, sustainabilityKeywords, List.filter, h1, h2, h3, h4, h5]
  have hscore : sustainability_score content = 9/10 := by
    rw [sustainability_score, hm]
    norm_num
  refine ⟨hscore, ?_, ?_⟩
  · show get_level (sustainability_score content) = "High"
    rw [hscore, get_level]
    norm_num
  · intro q
    refine ⟨fun h => ?_, fun h h2 => ?_, fun h => ?_⟩
    · rw [get_level, if_pos (by linarith)]
    · rw [get_level, if_neg (by simp; linarith), if_pos (by linarith)]
    · rw [get_level, if_neg (by simp; linarith), if_neg (by simp; linarith)]

/-- Witness for C5 at the concrete draft text `"sustainable eco green"`
with no similar notices. -/
theorem c5_mock_sustainability_high_witness :
    sustainability_score "sustainable eco green" = 9/10 ∧
    (mock_analysis "sustainable eco green" []).sustainability.level = "High" ∧
    (∀ q : ℚ, (3/4 ≤ q → get_level q = "High") ∧
      (1/2 ≤ q → q < 3/4 → get_level q = "Medium") ∧
      (q < 1/2 → get_level q = "Low")) :=
  c5_mock_sustainability_high "sustainable eco green" []
    (by decide) (by decide) (by decide) (by decide) (by decide)

/-- C2: when the first generative response fails validation with a caught
error (malformed JSON or a schema violation), `generate_analysis` sends
exactly one retry whose prompt is the original prompt amended with the
strict JSON-only directive; when the retry also fails, the generative path
terminates and `analyze_draft` still returns a well-formed analysis from the
fallback path whose caveats string is non-empty and references the
failure. -/
theorem c2_retry_then_fallback (backend : String → String) (prompt : String)
    (e1 e2 : PErr)
    (h1 : parse_response (backend prompt) = .error e1)
    (hr : retryable e1 = true)
    (h2 : parse_response (backend (create_strict_json_prompt prompt)) = .error e2) :
    (generate_analysis backend prompt).2 = [prompt, create_strict_json_prompt prompt] ∧
    create_strict_json_prompt prompt = prompt ++ strictSuffix ∧
    ("ONLY valid JSON".toList <:+: strictSuffix.toList) ∧
    (generate_analysis backend prompt).1 = .error e2 ∧
    analyze_llm_stage backend prompt = fallbackAnalysis e2 ∧
    (fallbackAnalysis e2).caveats = "Analysis could not be completed: " ++ errStr e2 ∧
    (fallbackAnalysis e2).caveats ≠ "" := by
  have hgen : generate_analysis backend prompt =
      (.error e2, [prompt, create_strict_json_prompt prompt]) := by
    rw [generate_analysis, h1]
    simp [hr, h2]
  refine ⟨by rw [hgen], rfl, by decide, by rw [hgen], ?_, rfl, ?_⟩
  · rw [analyze_llm_stage, hgen]
  · cases e2 <;> decide

/-- Witness for C2: a backend that always answers non-JSON text fails both
attempts with a JSON decode error. -/
theorem c2_retry_then_fallback_witness :
    (generate_analysis (fun _ => "I cannot answer that.") "PROMPT").2 =
      ["PROMPT", create_strict_json_prompt "PROMPT"] ∧
    create_strict_json_prompt "PROMPT" = "PROMPT" ++ strictSuffix ∧
    ("ONLY valid JSON".toList <:+: strictSuffix.toList) ∧
    (generate_analysis (fun _ => "I cannot answer that.") "PROMPT").1 = .error .jsonDecode ∧
    analyze_llm_stage (fun _ => "I cannot answer that.") "PROMPT" =
      fallbackAnalysis .jsonDecode ∧
    (fallbackAnalysis PErr.jsonDecode).caveats =
      "Analysis could not be completed: " ++ errStr .jsonDecode ∧
    (fallbackAnalysis PErr.jsonDecode).caveats ≠ "" :=
  c2_retry_then_fallback (fun _ => "I cannot answer that.") "PROMPT" .jsonDecode .jsonDecode
    (by decide) (by decide) (by decide)

set_option maxRecDepth 100000 in
/-- Counterexample to C8 as stated: a generative backend response whose
`decision` is the string `escalate` passes schema validation (pydantic
declares `decision: str` with no enumeration), so the analyze operation
returns a Structured Analysis whose decision tag lies outside the closed
set `approve / revise / reject / review_required`. -/
theorem c8_counterexample :
    (analyze_llm_stage (fun _ => freeDecisionResponse) "p").recommendation.decision
        = "escalate" ∧
    "escalate" ∉ (["approve", "revise", "reject", "review_required"] : List String) := by
  constructor
  · decide
  · decide

/-- C8, amended: the fallback path always carries the decision
`review_required`, which lies in the closed set; the generative path passes
the validated decision string through unconstrained (the schema does not
enforce the closed set, the prompt merely requests it). -/
theorem c8_amended :
    (∀ e : PErr,
      (fallbackAnalysis e).recommendation.decision = "review_required" ∧
      (fallbackAnalysis e).recommendation.decision ∈
        (["approve", "revise", "reject", "review_required"] : List String)) ∧
    (∀ (backend : String → String) (prompt : String) (r : AnalysisResult),
      (generate_analysis backend prompt).1 = .ok r →
      (analyze_llm_stage backend prompt).recommendation.decision =
        r.recommendation.decision) := by
  constructor
  · intro e
    exact ⟨rfl, by simp [fallbackAnalysis]⟩
  · intro backend prompt r h
    rw [analyze_llm_stage, h]

set_option maxRecDepth 100000 in
/-- Witness for C8 (amended), at the concrete backend whose response
validates with decision `escalate`. -/
theorem c8_amended_witness :
    ((fallbackAnalysis PErr.jsonDecode).recommendation.decision = "review_required" ∧
      (fallbackAnalysis PErr.jsonDecode).recommendation.decision ∈
        (["approve", "revise", "reject", "review_required"] : List String)) ∧
    (analyze_llm_stage (fun _ => freeDecisionResponse) "p").recommendation.decision =
      freeDecisionResult.recommendation.decision :=
  ⟨c8_amended.1 .jsonDecode,
   c8_amended.2 (fun _ => freeDecisionResponse) "p" freeDecisionResult (by decide)⟩

/-- Inversion for a required `str` field. -/
theorem getStr_inv {kvs : List (String × Json)} {k : String} {v : String}
    (h : getStr kvs k = some v) : dictGet kvs k = some (.str v) := by
  unfold getStr at h
  split at h
  · rename_i s heq
    cases h
    exact heq
  · cases h

/-- Inversion for a required `float` field. -/
theorem getNum_inv {kvs : List (String × Json)} {k : String} {q : ℚ}
    (h : getNum kvs k = some q) : dictGet kvs k = some (.num q) := by
  unfold getNum at h
  split at h
  · rename_i s heq
    cases h
    exact heq
  · cases h

/-- Inversion for the qualitative-analysis sub-object: acceptance forces all
four rubric fields to be present as strings. -/
theorem validateQual_inv {j : Json} {qa : QualitativeAnalysis}
    (h : validateQual j = some qa) :
    ∃ qkvs, j = .obj qkvs ∧
      dictGet qkvs "risk_management" = some (.str qa.risk_management) ∧
      dictGet qkvs "sustainability_social_values" =
        some (.str qa.sustainability_social_values) ∧
      dictGet qkvs "transparency_fair_competition" =
        some (.str qa.transparency_fair_competition) ∧
      dictGet qkvs "innovation_forward_thinking" =
        some (.str qa.innovation_forward_thinking) := by
  cases j with
  | obj qkvs =>
    have h2 : validateQualObj qkvs = some qa := h
    unfold validateQualObj at h2
    split at h2
    · rename_i rm ss tf it hrm hss htf hit
      cases h2
      exact ⟨qkvs, rfl, getStr_inv hrm, getStr_inv hss, getStr_inv htf, getStr_inv hit⟩
    · cases h2
  | null => exact Option.noConfusion h
  | bool b => exact Option.noConfusion h
  | num q => exact Option.noConfusion h
  | str s => exact Option.noConfusion h
  | arr xs => exact Option.noConfusion h

/-- Inversion for the pydantic field checks: acceptance forces the
qualitative object with its four string fields and a confidence in
`[0, 1]`. -/
theorem validateFields_inv {kvs : List (String × Json)} {r : AnalysisResult}
    (h : validateFields kvs = some r) :
    (∃ qkvs, dictGet kvs "qualitative_analysis" = some (.obj qkvs) ∧
      dictGet qkvs "risk_management" =
        some (.str r.qualitative_analysis.risk_management) ∧
      dictGet qkvs "sustainability_social_values" =
        some (.str r.qualitative_analysis.sustainability_social_values) ∧
      dictGet qkvs "transparency_fair_competition" =
        some (.str r.qualitative_analysis.transparency_fair_competition) ∧
      dictGet qkvs "innovation_forward_thinking" =
        some (.str r.qualitative_analysis.innovation_forward_thinking)) ∧
    dictGet kvs "confidence" = some (.num r.confidence) ∧
    0 ≤ r.confidence ∧ r.confidence ≤ 1 := by
  unfold validateFields at h
  split at h
  · rename_i snr ov qa rcm conf cav hsnr hov hqa hrcm hconf hcav
    split at h
    · rename_i hbounds
      cases h
      have hqual : ∃ qkvs, dictGet kvs "qualitative_analysis" = some (.obj qkvs) ∧
          dictGet qkvs "risk_management" = some (.str qa.risk_management) ∧
          dictGet qkvs "sustainability_social_values" =
            some (.str qa.sustainability_social_values) ∧
          dictGet qkvs "transparency_fair_competition" =
            some (.str qa.transparency_fair_competition) ∧
          dictGet qkvs "innovation_forward_thinking" =
            some (.str qa.innovation_forward_thinking) := by
        unfold validateQualField at hqa
        split at hqa
        · rename_i v heq
          obtain ⟨qkvs, hv, h1, h2, h3, h4⟩ := validateQual_inv hqa
          exact ⟨qkvs, hv ▸ heq, h1, h2, h3, h4⟩
        · cases hqa
      exact ⟨hqual, getNum_inv hconf, hbounds.1, hbounds.2⟩
    · cases h
  · cases h

/-- C3: schema validation accepts a generative response body only if the
decoded object carries all four qualitative rubric fields as strings and a
numeric confidence lying in `[0, 1]`; any body missing one of those fields
or with confidence outside `[0, 1]` is rejected (yields a validation error,
never an `AnalysisResult`). -/
theorem c3_schema_validation (s : String) (r : AnalysisResult)
    (h : parse_response s = .ok r) :
    ∃ kvs, jsonParseL (responseBody s) = some (.obj kvs) ∧
      (∃ qkvs, dictGet kvs "qualitative_analysis" = some (.obj qkvs) ∧
        dictGet qkvs "risk_management" =
          some (.str r.qualitative_analysis.risk_management) ∧
        dictGet qkvs "sustainability_social_values" =
          some (.str r.qualitative_analysis.sustainability_social_values) ∧
        dictGet qkvs "transparency_fair_competition" =
          some (.str r.qualitative_analysis.transparency_fair_competition) ∧
        dictGet qkvs "innovation_forward_thinking" =
          some (.str r.qualitative_analysis.innovation_forward_thinking)) ∧
      dictGet kvs "confidence" = some (.num r.confidence) ∧
      0 ≤ r.confidence ∧ r.confidence ≤ 1 := by
  rw [parse_response] at h
  cases hj : jsonParseL (responseBody s) with
  | none => rw [hj] at h; cases h
  | some j =>
    rw [hj] at h
    cases j with
    | obj kvs =>
      refine ⟨kvs, rfl, ?_⟩
      have h2 : (match validateFields kvs with
        | some r => (Except.ok r : Except PErr AnalysisResult)
        | none => .error .validation) = .ok r := h
      split at h2
      · rename_i r2 hfields
        cases h2
        exact validateFields_inv hfields
      · cases h2
    | null => exact Except.noConfusion h
    | bool b => exact Except.noConfusion h
    | num q => exact Except.noConfusion h
    | str s2 => exact Except.noConfusion h
    | arr xs => exact Except.noConfusion h

set_option maxRecDepth 100000 in
/-- Witness for C3 at a concrete response body that validation accepts. -/
theorem c3_schema_validation_witness :
    ∃ kvs, jsonParseL (responseBody freeDecisionResponse) = some (.obj kvs) ∧
      (∃ qkvs, dictGet kvs "qualitative_analysis" = some (.obj qkvs) ∧
        dictGet qkvs "risk_management" =
          some (.str freeDecisionResult.qualitative_analysis.risk_management) ∧
        dictGet qkvs "sustainability_social_values" =
          some (.str freeDecisionResult.qualitative_analysis.sustainability_social_values) ∧
        dictGet qkvs "transparency_fair_competition" =
          some (.str freeDecisionResult.qualitative_analysis.transparency_fair_competition) ∧
        dictGet qkvs "innovation_forward_thinking" =
          some (.str freeDecisionResult.qualitative_analysis.innovation_forward_thinking)) ∧
      dictGet kvs "confidence" = some (.num freeDecisionResult.confidence) ∧
      0 ≤ freeDecisionResult.confidence ∧ freeDecisionResult.confidence ≤ 1 :=
  c3_schema_validation freeDecisionResponse freeDecisionResult (by decide)

/-- Dropping while a predicate holds is idempotent. -/
theorem dropWhile_dropWhile (p : Char → Bool) (l : List Char) :
    (l.dropWhile p).dropWhile p = l.dropWhile p := by
  induction l with
  | nil => rfl
  | cons c cs ih =>
    by_cases hc : p c
    · simp [List.dropWhile_cons, hc, ih]
    · simp [List.dropWhile_cons, hc]

/-- The head of a non-empty `dropWhile` result does not satisfy the
predicate. -/
theorem dropWhile_head_not (p : Char → Bool) (l : List Char) (c : Char)
    (t : List Char) (h : l.dropWhile p = c :: t) : p c = false := by
  induction l with
  | nil => cases h
  | cons a as ih =>
    by_cases ha : p a
    · rw [List.dropWhile_cons, if_pos ha] at h
      exact ih h
    · rw [List.dropWhile_cons, if_neg ha] at h
      cases h
      exact Bool.of_not_eq_true ha

/-- Python `strip` is idempotent. -/
theorem pyStripL_idem (cs : List Char) : pyStripL (pyStripL cs) = pyStripL cs := by
  unfold pyStripL
  set A := cs.dropWhile isPyWs with hA
  set R := (A.reverse.dropWhile isPyWs).reverse with hR
  have hsuf : A.reverse.dropWhile isPyWs <:+ A.reverse := List.dropWhile_suffix _
  have hpre : R <+: A := by
    rw [hR]
    conv_rhs => rw [← List.reverse_reverse A]
    exact List.reverse_prefix.mpr hsuf
  have hdrop : R.dropWhile isPyWs = R := by
    cases hRc : R with
    | nil => rfl
    | cons h t =>
      -- `R` is a prefix of `A`, so its head is the head of `A`,
      -- which survives `dropWhile isPyWs`
      rw [hRc] at hpre
      obtain ⟨s, hs⟩ := hpre
      have hAc : A = h :: (t ++ s) := by rw [← hs]; rfl
      have hh : isPyWs h = false :=
        dropWhile_head_not isPyWs cs h (t ++ s) (by rw [← hA, hAc])
      rw [List.dropWhile_cons, hh]
      simp
  rw [hdrop, hR, List.reverse_reverse, dropWhile_dropWhile]

/-- `json.loads` ignores surrounding whitespace: parsing a stripped text is
the same as parsing the raw text. -/
theorem jsonParseL_pyStripL (cs : List Char) :
    jsonParseL (pyStripL cs) = jsonParseL cs := by
  unfold jsonParseL
  rw [pyStripL_idem]

/-- `strip` is the identity on a list that starts and ends with a
non-whitespace character. -/
theorem pyStripL_sandwich (a b : Char) (mid : List Char)
    (ha : isPyWs a = false) (hb : isPyWs b = false) :
    pyStripL (a :: (mid ++ [b])) = a :: (mid ++ [b]) := by
  unfold pyStripL
  rw [List.dropWhile_cons, ha]
  simp only [Bool.false_eq_true, if_false, List.reverse_cons, List.reverse_append,
    List.reverse_cons, List.reverse_nil, List.nil_append, List.cons_append,
    List.dropWhile_cons, hb]
  simp

/-- C6: wrapping a response text in markdown code-fence markers does not
change the parse result — for every text that is not itself fenced after
stripping, `_parse_response` of the fenced form equals `_parse_response` of
the bare form. -/
theorem c6_fence_roundtrip (t : String)
    (h : startsWithFence (pyStripL t.toList) = false) :
    parse_response ("```json\n" ++ t ++ "\n```") = parse_response t := by
  have hwl : ("```json\n" ++ t ++ "\n```").toList
      = '`' :: (("``json\n".toList ++ t.toList ++ "\n``".toList) ++ ['`']) := by
    cases t with
    | mk data =>
      show ("```json\n".data ++ data) ++ "\n```".data = _
      show ((['`', '`', '`', 'j', 's', 'o', 'n', '\n'] ++ data) ++ ['\n', '`', '`', '`']) = _
      simp
  have hbody : responseBody ("```json\n" ++ t ++ "\n```") = t.toList := by
    rw [responseBody, hwl,
      pyStripL_sandwich '`' '`' ("``json\n".toList ++ t.toList ++ "\n``".toList)
        (by decide) (by decide)]
    have hfence : startsWithFence
        ('`' :: (("``json\n".toList ++ t.toList ++ "\n``".toList) ++ ['`'])) = true := by
      show startsWithFence ('`' :: (('`' :: '`' :: 'j' :: 's' :: 'o' :: 'n' :: '\n' ::
        (t.toList ++ "\n``".toList)) ++ ['`'])) = true
      rfl
    rw [if_pos hfence]
    have hsplit : ('`' :: (("``json\n".toList ++ t.toList ++ "\n``".toList) ++ ['`']))
        = "```json".toList ++ '\n' :: (t.toList ++ '\n' :: "```".toList) := by
      show '`' :: (('`' :: '`' :: 'j' :: 's' :: 'o' :: 'n' :: '\n' ::
        (t.toList ++ ('\n' :: '`' :: '`' :: []) ++ ['`']))) = _
      simp
    rw [stripFencesL, hsplit, splitOnNl_append]
    have h1 : splitOnNl "```json".toList = ["```json".toList] := rfl
    have h2 : splitOnNl (t.toList ++ '\n' :: "```".toList)
        = splitOnNl t.toList ++ ["```".toList] := by
      rw [splitOnNl_append]
      rfl
    rw [h1, h2]
    have hfence2 : startsWithFence "```json".toList = true := rfl
    simp only [List.singleton_append, hfence2, if_pos]
    have hlast : (splitOnNl t.toList ++ ["```".toList]).getLast?
        = some "```".toList := List.getLast?_concat _
    rw [hlast]
    show joinNl (if pyStripL "```".toList = fenceChars
      then (splitOnNl t.toList ++ ["```".toList]).dropLast
      else splitOnNl t.toList ++ ["```".toList]) = t.toList
    rw [if_pos (show pyStripL "```".toList = fenceChars from rfl),
      List.dropLast_concat, joinNl_splitOnNl]
  rw [parse_response, parse_response, hbody]
  have hbody2 : responseBody t = pyStripL t.toList := by
    show (if startsWithFence (pyStripL t.toList) then stripFencesL (pyStripL t.toList)
      else pyStripL t.toList) = pyStripL t.toList
    rw [h]
    simp
  rw [hbody2, jsonParseL_pyStripL]

set_option maxRecDepth 100000 in
/-- Witness for C6 at a concrete (unfenced) response body. -/
theorem c6_fence_roundtrip_witness :
    parse_response ("```json\n" ++ freeDecisionResponse ++ "\n```") =
      parse_response freeDecisionResponse :=
  c6_fence_roundtrip freeDecisionResponse (by decide)

/-- The character-frequency pass preserves entrywise non-negativity. -/
theorem bumpChars_nonneg (cs : List Char) (v : Fin 100 → ℚ)
    (h : ∀ i, 0 ≤ v i) : ∀ i, 0 ≤ bumpChars v cs i := by
  induction cs generalizing v with
  | nil => exact h
  | cons c cs ih =>
    refine ih _ (fun i => ?_)
    rw [Function.update_apply]
    split
    · exact add_nonneg (h _) zero_le_one
    · exact h i

/-- The keyword pass preserves entrywise non-negativity. -/
theorem setKeywordFlags_nonneg (textLower : String) (kws : List (Nat × String))
    (v : Fin 100 → ℚ) (h : ∀ i, 0 ≤ v i) :
    ∀ i, 0 ≤ setKeywordFlags textLower v kws i := by
  induction kws generalizing v with
  | nil => exact h
  | cons kw kws ih =>
    refine ih _ (fun i => ?_)
    split
    · rw [Function.update_apply]
      split
      · exact zero_le_one
      · exact h i
    · exact h i

/-- Every entry of the pre-normalisation embedding vector is non-negative. -/
theorem preEmbed_nonneg (t : String) : ∀ i, 0 ≤ preEmbed t i := by
  refine setKeywordFlags_nonneg _ _ _ (fun i => ?_)
  rw [Function.update_apply]
  split
  · exact Nat.cast_nonneg _
  · exact bumpChars_nonneg _ _ (fun _ => le_refl 0) i

/-- Unfolding of `simple_embedding` into its two branches. -/
theorem simple_embedding_def (t : String) :
    simple_embedding t =
      if 0 < Real.sqrt ((normSqQ (preEmbed t) : ℚ) : ℝ)
      then (fun i => ((preEmbed t i : ℚ) : ℝ) /
        Real.sqrt ((normSqQ (preEmbed t) : ℚ) : ℝ))
      else (fun i => ((preEmbed t i : ℚ) : ℝ)) := rfl

/-- C7: the fallback embedding never divides by zero — a text whose
pre-normalisation vector has zero squared L2 norm takes the unguarded
branch: the vector is returned unchanged, and it is the zero vector;
division by the norm happens only when the norm is positive. -/
theorem c7_zero_norm_no_div (t : String) (h : normSqQ (preEmbed t) = 0) :
    (∀ i, simple_embedding t i = ((preEmbed t i : ℚ) : ℝ)) ∧
    (∀ i, preEmbed t i = 0) ∧
    (∀ i, simple_embedding t i = 0) := by
  have hzero : ∀ i, preEmbed t i = 0 := by
    intro i
    have hsum := h
    rw [normSqQ] at hsum
    have hnn : ∀ j ∈ Finset.univ, (0 : ℚ) ≤ preEmbed t j ^ 2 := fun j _ => sq_nonneg _
    have h2 := (Finset.sum_eq_zero_iff_of_nonneg hnn).mp hsum i (Finset.mem_univ i)
    exact pow_eq_zero_iff (two_ne_zero) |>.mp h2
  have hbranch : ¬ (0 < Real.sqrt ((normSqQ (preEmbed t) : ℚ) : ℝ)) := by
    rw [h]
    simp
  have hunchanged : ∀ i, simple_embedding t i = ((preEmbed t i : ℚ) : ℝ) := by
    intro i
    rw [simple_embedding_def, if_neg hbranch]
  exact ⟨hunchanged, hzero, fun i => by rw [hunchanged i, hzero i]; norm_num⟩

/-- Witness for C7 at the empty input text, whose feature vector is entirely
zero. -/
theorem c7_zero_norm_no_div_witness :
    (∀ i, simple_embedding "" i = ((preEmbed "" i : ℚ) : ℝ)) ∧
    (∀ i, preEmbed "" i = 0) ∧
    (∀ i, simple_embedding "" i = 0) := by
  have hz : ∀ i, preEmbed "" i = 0 := by decide
  have hn : normSqQ (preEmbed "") = 0 := by
    rw [normSqQ]
    apply Finset.sum_eq_zero
    intro i _
    rw [hz i]
    ring
  exact c7_zero_norm_no_div "" hn

/-- Entries of the normalised embedding are non-negative. -/
theorem simple_embedding_nonneg (t : String) (i : Fin 100) :
    0 ≤ simple_embedding t i := by
  rw [simple_embedding_def]
  split
  · show (0 : ℝ) ≤ ((preEmbed t i : ℚ) : ℝ) / Real.sqrt ((normSqQ (preEmbed t) : ℚ) : ℝ)
    exact div_nonneg (by exact_mod_cast preEmbed_nonneg t i) (Real.sqrt_nonneg _)
  · show (0 : ℝ) ≤ ((preEmbed t i : ℚ) : ℝ)
    exact_mod_cast preEmbed_nonneg t i

/-- C10: the fallback embedding is a 100-dimensional vector with
non-negative entries whose squared L2 norm is 0 or 1, so every similarity
score produced by the dense search — a dot product of two such vectors —
lies in `[0, 1]`. -/
theorem c10_embedding_normalised :
    (∀ t : String, (List.ofFn (simple_embedding t)).length = 100) ∧
    (∀ (t : String) (i : Fin 100), 0 ≤ simple_embedding t i) ∧
    (∀ t : String, (∑ i, (simple_embedding t i) ^ 2) = 0 ∨
      (∑ i, (simple_embedding t i) ^ 2) = 1) ∧
    (∀ t1 t2 : String, 0 ≤ dotR (simple_embedding t1) (simple_embedding t2) ∧
      dotR (simple_embedding t1) (simple_embedding t2) ≤ 1) := by
  have hcast : ∀ t : String,
      (∑ i, (((preEmbed t i : ℚ) : ℝ)) ^ 2) = ((normSqQ (preEmbed t) : ℚ) : ℝ) := by
    intro t
    rw [normSqQ]
    push_cast
    rfl
  have hSnn : ∀ t : String, (0 : ℝ) ≤ ((normSqQ (preEmbed t) : ℚ) : ℝ) := by
    intro t
    rw [← hcast]
    exact Finset.sum_nonneg (fun i _ => sq_nonneg _)
  have hnorm01 : ∀ t : String, (∑ i, (simple_embedding t i) ^ 2) = 0 ∨
      (∑ i, (simple_embedding t i) ^ 2) = 1 := by
    intro t
    rw [simple_embedding_def]
    split
    · rename_i hpos
      right
      have hSpos : (0 : ℝ) < ((normSqQ (preEmbed t) : ℚ) : ℝ) :=
        Real.sqrt_pos.mp hpos
      have hsq : Real.sqrt ((normSqQ (preEmbed t) : ℚ) : ℝ) ^ 2 =
          ((normSqQ (preEmbed t) : ℚ) : ℝ) := Real.sq_sqrt (le_of_lt hSpos)
      simp only [div_pow, ← Finset.sum_div]
      rw [hcast, hsq, div_self (ne_of_gt hSpos)]
    · rename_i hneg
      left
      have hsqrt0 : Real.sqrt ((normSqQ (preEmbed t) : ℚ) : ℝ) = 0 :=
        le_antisymm (not_lt.mp hneg) (Real.sqrt_nonneg _)
      have hS0 : ((normSqQ (preEmbed t) : ℚ) : ℝ) = 0 :=
        (Real.sqrt_eq_zero (hSnn t)).mp hsqrt0
      show (∑ i : Fin 100, ((preEmbed t i : ℚ) : ℝ) ^ 2) = 0
      rw [hcast t]
      exact hS0
  refine ⟨fun t => List.length_ofFn _, simple_embedding_nonneg, hnorm01, fun t1 t2 => ?_⟩
  have hdotnn : 0 ≤ dotR (simple_embedding t1) (simple_embedding t2) := by
    rw [dotR]
    exact Finset.sum_nonneg (fun i _ =>
      mul_nonneg (simple_embedding_nonneg t1 i) (simple_embedding_nonneg t2 i))
  refine ⟨hdotnn, ?_⟩
  have hcs := Finset.sum_mul_sq_le_sq_mul_sq Finset.univ
    (simple_embedding t1) (simple_embedding t2)
  have h1 : (∑ i, (simple_embedding t1 i) ^ 2) ≤ 1 := by
    rcases hnorm01 t1 with h | h <;> simp [h]
  have h1nn : (0 : ℝ) ≤ ∑ i, (simple_embedding t1 i) ^ 2 :=
    Finset.sum_nonneg (fun i _ => sq_nonneg _)
  have h2 : (∑ i, (simple_embedding t2 i) ^ 2) ≤ 1 := by
    rcases hnorm01 t2 with h | h <;> simp [h]
  have h2nn : (0 : ℝ) ≤ ∑ i, (simple_embedding t2 i) ^ 2 :=
    Finset.sum_nonneg (fun i _ => sq_nonneg _)
  have hsq : dotR (simple_embedding t1) (simple_embedding t2) ^ 2 ≤ 1 := by
    rw [dotR]
    calc (∑ i, simple_embedding t1 i * simple_embedding t2 i) ^ 2
        ≤ (∑ i, (simple_embedding t1 i) ^ 2) * (∑ i, (simple_embedding t2 i) ^ 2) := hcs
      _ ≤ 1 := by nlinarith
  nlinarith [hdotnn, hsq]

/-- The descending sort of `VectorStore.search` is pairwise-ordered by the
lexicographic comparison (score descending, index ascending). -/
theorem pySortDesc_pairwise (xs : List (Nat × ℝ)) :
    (pySortDesc xs).Pairwise
      (fun a b => b.2 < a.2 ∨ (a.2 = b.2 ∧ a.1 ≤ b.1)) := by
  have htrans : ∀ a b c : Nat × ℝ,
      decide (b.2 < a.2 ∨ (a.2 = b.2 ∧ a.1 ≤ b.1)) →
      decide (c.2 < b.2 ∨ (b.2 = c.2 ∧ b.1 ≤ c.1)) →
      decide (c.2 < a.2 ∨ (a.2 = c.2 ∧ a.1 ≤ c.1)) := by
    intro a b c hab hbc
    rw [decide_eq_true_eq] at *
    rcases hab with h1 | ⟨h1, h1i⟩ <;> rcases hbc with h2 | ⟨h2, h2i⟩
    · exact Or.inl (lt_trans h2 h1)
    · exact Or.inl (h2 ▸ h1)
    · exact Or.inl (h1 ▸ h2)
    · exact Or.inr ⟨h1.trans h2, h1i.trans h2i⟩
  have htotal : ∀ a b : Nat × ℝ,
      decide (b.2 < a.2 ∨ (a.2 = b.2 ∧ a.1 ≤ b.1)) ||
      decide (a.2 < b.2 ∨ (b.2 = a.2 ∧ b.1 ≤ a.1)) := by
    intro a b
    rw [Bool.or_eq_true, decide_eq_true_eq, decide_eq_true_eq]
    rcases lt_trichotomy a.2 b.2 with h | h | h
    · exact Or.inr (Or.inl h)
    · rcases Nat.le_total a.1 b.1 with hi | hi
      · exact Or.inl (Or.inr ⟨h, hi⟩)
      · exact Or.inr (Or.inr ⟨h.symm, hi⟩)
    · exact Or.inl (Or.inl h)
  have := List.sorted_mergeSort htrans htotal xs
  exact this.imp (fun h => by rwa [decide_eq_true_eq] at h)

/-- The ascending argsort of the TF-IDF path is pairwise-ordered by the
lexicographic comparison (score ascending, index ascending). -/
theorem pyArgsort_pairwise (sims : List ℚ) :
    (pyArgsortWithScores sims).Pairwise
      (fun a b => a.2 < b.2 ∨ (a.2 = b.2 ∧ a.1 ≤ b.1)) := by
  have htrans : ∀ a b c : Nat × ℚ,
      decide (a.2 < b.2 ∨ (a.2 = b.2 ∧ a.1 ≤ b.1)) →
      decide (b.2 < c.2 ∨ (b.2 = c.2 ∧ b.1 ≤ c.1)) →
      decide (a.2 < c.2 ∨ (a.2 = c.2 ∧ a.1 ≤ c.1)) := by
    intro a b c hab hbc
    rw [decide_eq_true_eq] at *
    rcases hab with h1 | ⟨h1, h1i⟩ <;> rcases hbc with h2 | ⟨h2, h2i⟩
    · exact Or.inl (lt_trans h1 h2)
    · exact Or.inl (h2 ▸ h1)
    · exact Or.inl (h1 ▸ h2)
    · exact Or.inr ⟨h1.trans h2, h1i.trans h2i⟩
  have htotal : ∀ a b : Nat × ℚ,
      decide (a.2 < b.2 ∨ (a.2 = b.2 ∧ a.1 ≤ b.1)) ||
      decide (b.2 < a.2 ∨ (b.2 = a.2 ∧ b.1 ≤ a.1)) := by
    intro a b
    rw [Bool.or_eq_true, decide_eq_true_eq, decide_eq_true_eq]
    rcases lt_trichotomy a.2 b.2 with h | h | h
    · exact Or.inl (Or.inl h)
    · rcases Nat.le_total a.1 b.1 with hi | hi
      · exact Or.inl (Or.inr ⟨h, hi⟩)
      · exact Or.inr (Or.inr ⟨h.symm, hi⟩)
    · exact Or.inr (Or.inl h)
  have := List.sorted_mergeSort htrans htotal sims.enum
  exact this.imp (fun h => by rwa [decide_eq_true_eq] at h)

/-- C1: for every indexed store whose notices and embeddings are in lock
step, and every query, the dense search returns exactly
`min(k, corpus size)` results ordered by non-increasing similarity; the
TF-IDF ranking step of `analyze_draft` (fixed `top_k = 10`) likewise
returns `min(10, corpus size)` results ordered by non-increasing score. -/
theorem c1_retrieval_count_and_order :
    (∀ (s : VectorStore) (q : String) (k : Nat),
      s.notices.length = s.embeddings.length →
      ((s.search q k).length = min k s.notices.length ∧
       (s.search q k).Pairwise (fun a b => b.2 ≤ a.2))) ∧
    (∀ sims : List ℚ,
      (tfidfTop sims 10).length = min 10 sims.length ∧
      (tfidfTop sims 10).Pairwise (fun a b => b.2 ≤ a.2)) := by
  constructor
  · intro s q k h
    by_cases hn : s.notices = []
    · rw [VectorStore.search, if_pos hn, hn]
      simp
    · rw [VectorStore.search, if_neg hn]
      have hlen : (s.similarities q).length = s.notices.length := by
        rw [VectorStore.similarities, List.length_map, List.enum_length, h]
      constructor
      · rw [List.length_map, VectorStore.searchRanked]
        rw [List.length_take, pySortDesc, List.length_mergeSort]
        rw [hlen]
        omega
      · rw [List.pairwise_map]
        refine List.Pairwise.sublist (List.take_sublist _ _) ?_
        exact (pySortDesc_pairwise (s.similarities q)).imp
          (fun hab => by
            rcases hab with h1 | ⟨h1, _⟩
            · exact le_of_lt h1
            · exact le_of_eq h1.symm)
  · intro sims
    constructor
    · rw [tfidfTop, List.length_take, List.length_reverse, pyArgsortWithScores,
        List.length_mergeSort, List.enum_length]
    · refine List.Pairwise.sublist (List.take_sublist _ _) ?_
      rw [List.pairwise_reverse]
      exact (pyArgsort_pairwise sims).imp
        (fun hab => by
          rcases hab with h1 | ⟨h1, _⟩
          · exact le_of_lt h1
          · exact le_of_eq h1)

/-- Witness for C1 at a concrete two-notice store with `k = 1`, plus the
TF-IDF half at a concrete score list. -/
theorem c1_retrieval_count_and_order_witness :
    ((twoNoticeStore.search "query" 1).length = min 1 twoNoticeStore.notices.length ∧
      (twoNoticeStore.search "query" 1).Pairwise (fun a b => b.2 ≤ a.2)) ∧
    ((tfidfTop [mkRat 1 2, mkRat 1 4, mkRat 3 4] 10).length =
        min 10 ([mkRat 1 2, mkRat 1 4, mkRat 3 4] : List ℚ).length ∧
      (tfidfTop [mkRat 1 2, mkRat 1 4, mkRat 3 4] 10).Pairwise
        (fun a b => b.2 ≤ a.2)) :=
  ⟨c1_retrieval_count_and_order.1 twoNoticeStore "query" 1 rfl,
   c1_retrieval_count_and_order.2 [mkRat 1 2, mkRat 1 4, mkRat 3 4]⟩

/-- The indices of the dense-search similarity list are the corpus
positions, each occurring once. -/
theorem similarities_fst_nodup (s : VectorStore) (q : String) :
    ((s.similarities q).map Prod.fst).Nodup := by
  rw [VectorStore.similarities, List.map_map]
  have : (Prod.fst ∘ fun p : Nat × (Fin 100 → ℝ) =>
      (p.1, dotR (simple_embedding q) p.2)) = Prod.fst := rfl
  rw [this, List.enum_map_fst]
  exact List.nodup_range _

/-- Pairwise distinctness of indices survives the descending sort. -/
theorem pySortDesc_fst_pairwise_ne (xs : List (Nat × ℝ))
    (h : (xs.map Prod.fst).Nodup) :
    (pySortDesc xs).Pairwise (fun a b => a.1 ≠ b.1) := by
  have hperm : List.Perm (pySortDesc xs) xs := List.mergeSort_perm xs _
  have : ((pySortDesc xs).map Prod.fst).Nodup :=
    ((hperm.map Prod.fst).nodup_iff).mpr h
  exact (List.pairwise_map).mp this

/-- Pairwise distinctness of indices survives the ascending argsort. -/
theorem pyArgsort_fst_pairwise_ne (sims : List ℚ) :
    (pyArgsortWithScores sims).Pairwise (fun a b => a.1 ≠ b.1) := by
  have hperm : List.Perm (pyArgsortWithScores sims) sims.enum := List.mergeSort_perm _ _
  have hnd : (sims.enum.map Prod.fst).Nodup := by
    rw [List.enum_map_fst]
    exact List.nodup_range _
  have : ((pyArgsortWithScores sims).map Prod.fst).Nodup :=
    ((hperm.map Prod.fst).nodup_iff).mpr hnd
  exact (List.pairwise_map).mp this

/-- The TF-IDF ranking of two tied scores: at this two-element input the
source's `np.argsort` takes its stable insertion-sort path, so the ascending
argsort is `[0, 1]` and the `[::-1]` reversal returns record 1 first. -/
theorem tfidfTop_tied_pair :
    tfidfTop [mkRat 1 2, mkRat 1 2] 10 = [(1, mkRat 1 2), (0, mkRat 1 2)] := by
  have hsorted : pyArgsortWithScores [mkRat 1 2, mkRat 1 2]
      = [(0, mkRat 1 2), (1, mkRat 1 2)] := by
    rw [pyArgsortWithScores,
      show ([mkRat 1 2, mkRat 1 2] : List ℚ).enum
        = [(0, mkRat 1 2), (1, mkRat 1 2)] from rfl]
    exact List.mergeSort_of_sorted (by decide)
  rw [tfidfTop, hsorted]
  rfl

/-- C4, amended: the dense vector-store search (Python's `sort`, a stable
descending sort) breaks ties between equal similarity scores by original
insertion order; the TF-IDF path of `analyze_draft` gives no such
guarantee — already at a two-notice corpus with equal scores, where the
source's `np.argsort` output is determined (insertion-sort path), the
`[::-1]` reversal returns the tied records out of insertion order. -/
theorem c4_amended_tie_break :
    (∀ (s : VectorStore) (q : String) (k : Nat),
      (s.searchRanked q k).Pairwise (fun a b => a.2 = b.2 → a.1 < b.1)) ∧
    ¬ (∀ (sims : List ℚ) (k : Nat),
        (tfidfTop sims k).Pairwise (fun a b => a.2 = b.2 → a.1 < b.1)) := by
  constructor
  · intro s q k
    rw [VectorStore.searchRanked]
    refine List.Pairwise.sublist (List.take_sublist _ _) ?_
    have h1 := pySortDesc_pairwise (s.similarities q)
    have h2 := pySortDesc_fst_pairwise_ne (s.similarities q)
      (similarities_fst_nodup s q)
    refine (h1.and h2).imp ?_
    rintro a b ⟨hle, hne⟩ heq
    rcases hle with hlt | ⟨_, hidx⟩
    · exact absurd (heq ▸ hlt) (lt_irrefl _)
    · exact lt_of_le_of_ne hidx hne
  · intro hall
    have h := hall [mkRat 1 2, mkRat 1 2] 10
    rw [tfidfTop_tied_pair] at h
    exact absurd h (by decide)

/-- Counterexample to C4 as stated: two indexed records with equal
similarity scores (as produced for two identical indexed documents) come
back from the TF-IDF ranking in reverse corpus order — record 1 before
record 0 — so the tie is not broken by original insertion order. -/
theorem c4_counterexample :
    tfidfTop [mkRat 1 2, mkRat 1 2] 10 = [(1, mkRat 1 2), (0, mkRat 1 2)] ∧
    ¬ (tfidfTop [mkRat 1 2, mkRat 1 2] 10).Pairwise
        (fun a b => a.2 = b.2 → a.1 < b.1) := by
  refine ⟨tfidfTop_tied_pair, ?_⟩
  rw [tfidfTop_tied_pair]
  decide

/-- Sorting deduplicated strings does not add elements. -/
theorem mem_sortedDedupStr {x : String} {l : List String}
    (h : x ∈ sortedDedupStr l) : x ∈ l := by
  rw [sortedDedupStr] at h
  have hperm := List.perm_insertionSort pySortedRel l.dedup
  exact (List.mem_dedup).mp (hperm.mem_iff.mp h)

/-- Every classification code emitted by `normalize_cpv_codes` is a string
of exactly eight digits (the final `re.fullmatch` filter guarantees it). -/
theorem normalize_cpv_codes_eight_digits (n : List (String × Json)) :
    ∀ code ∈ normalize_cpv_codes n, is8Digits code = true := by
  intro code hmem
  rw [normalize_cpv_codes] at hmem
  have h2 := mem_sortedDedupStr hmem
  exact List.of_mem_filter h2

/-- A year-month-day separator match yields an ISO-shaped date string. -/
theorem matchYmdSep_iso {cs : List Char} {y m d : List Char}
    (h : matchYmdSep cs = some (y, m, d)) :
    isIsoShape (String.mk (y ++ '-' :: (m ++ '-' :: d))) = true := by
  unfold matchYmdSep at h
  split at h
  · split at h
    · rename_i a b c dd s1 e f s2 g hh hcond
      cases h
      obtain ⟨_, _, ha, hb, hc, hd, he, hf, hg, hh2⟩ := hcond
      show isIsoShape (String.mk [a, b, c, dd, '-', e, f, '-', g, hh]) = true
      rw [isIsoShape]
      simp [ha, hb, hc, hd, he, hf, hg, hh2]
    · cases h
  · cases h

/-- A day-month-year separator match yields an ISO-shaped date string. -/
theorem matchDmySep_iso {cs : List Char} {y m d : List Char}
    (h : matchDmySep cs = some (d, m, y)) :
    isIsoShape (String.mk (y ++ '-' :: (m ++ '-' :: d))) = true := by
  unfold matchDmySep at h
  split at h
  · split at h
    · rename_i a b s1 c dd s2 e f g hh hcond
      cases h
      obtain ⟨_, _, ha, hb, hc, hd, he, hf, hg, hh2⟩ := hcond
      show isIsoShape (String.mk [e, f, g, hh, '-', c, dd, '-', a, b]) = true
      rw [isIsoShape]
      simp [ha, hb, hc, hd, he, hf, hg, hh2]
    · cases h
  · cases h

/-- C9 date part: `normalize_date` returns either the empty string or an
ISO-shaped `YYYY-MM-DD` string — it never lies about the shape. -/
theorem normalize_date_shape (j : Json) :
    normalize_date j = "" ∨ isIsoShape (normalize_date j) = true := by
  rw [normalize_date]
  split
  · exact Or.inl rfl
  · dsimp only []
    split
    · rename_i hiso
      exact Or.inr hiso
    · split
      · rename_i y m d hmatch
        exact Or.inr (matchYmdSep_iso hmatch)
      · split
        · rename_i d m y hmatch
          exact Or.inr (matchDmySep_iso hmatch)
        · exact Or.inl rfl

/-- A stripped list has no leading whitespace to drop. -/
theorem dropWhile_pyStripL (cs : List Char) :
    (pyStripL cs).dropWhile isPyWs = pyStripL cs := by
  unfold pyStripL
  set A := cs.dropWhile isPyWs with hA
  set R := (A.reverse.dropWhile isPyWs).reverse with hR
  have hsuf : A.reverse.dropWhile isPyWs <:+ A.reverse := List.dropWhile_suffix _
  have hpre : R <+: A := by
    rw [hR]
    conv_rhs => rw [← List.reverse_reverse A]
    exact List.reverse_prefix.mpr hsuf
  cases hRc : R with
  | nil => rfl
  | cons h t =>
    rw [hRc] at hpre
    obtain ⟨s, hs⟩ := hpre
    have hAc : A = h :: (t ++ s) := by rw [← hs]; rfl
    have hh : isPyWs h = false :=
      dropWhile_head_not isPyWs cs h (t ++ s) (by rw [← hA, hAc])
    rw [List.dropWhile_cons, hh]
    simp

/-- A prefix of a list with no leading run of `p` also has none. -/
theorem dropWhile_eq_self_of_prefix {p : Char → Bool} {u l : List Char}
    (hl : l.dropWhile p = l) (hu : u <+: l) : u.dropWhile p = u := by
  cases u with
  | nil => rfl
  | cons c u2 =>
    obtain ⟨s, hs⟩ := hu
    have hlc : l = c :: (u2 ++ s) := by rw [← hs]; rfl
    have hc : p c = false := by
      by_cases hc : p c = true
      · rw [hlc, List.dropWhile_cons, if_pos hc] at hl
        have hle : ((u2 ++ s).dropWhile p).length ≤ (u2 ++ s).length :=
          (List.dropWhile_suffix p).length_le
        have := congrArg List.length hl
        simp only [List.length_cons] at this
        omega
      · exact Bool.of_not_eq_true hc
    rw [List.dropWhile_cons, hc]
    simp

/-- Splitting a leading-whitespace-free list at its stripped end: the
dropped tail is all whitespace. -/
theorem pyStripL_split {u : List Char} (hh : u.dropWhile isPyWs = u) :
    ∃ tail2, u = pyStripL u ++ tail2 ∧ ∀ c ∈ tail2, isPyWs c = true := by
  have h1 : pyStripL u = (u.reverse.dropWhile isPyWs).reverse := by
    rw [pyStripL, hh]
  refine ⟨(u.reverse.takeWhile isPyWs).reverse, ?_, ?_⟩
  · rw [h1, ← List.reverse_append, List.takeWhile_append_dropWhile, List.reverse_reverse]
  · intro c hc
    rw [List.mem_reverse] at hc
    exact List.mem_takeWhile_imp hc

/-- `rsplit(" ", 1)` decomposition: a list containing a space splits as the
part before its last space, the space, and a space-free rest. -/
theorem beforeLastSpace_spec {cs : List Char} (h : ' ' ∈ cs) :
    ∃ rest, cs = beforeLastSpace cs ++ ' ' :: rest ∧ ' ' ∉ rest := by
  have hrev : ' ' ∈ cs.reverse := by rwa [List.mem_reverse]
  have hne : cs.reverse.dropWhile (fun c => c ≠ ' ') ≠ [] := by
    intro h0
    have hall := List.dropWhile_eq_nil_iff.mp h0
    have := hall _ hrev
    simp at this
  obtain ⟨d, e, hde⟩ : ∃ d e, cs.reverse.dropWhile (fun c => c ≠ ' ') = d :: e := by
    cases hc : cs.reverse.dropWhile (fun c => c ≠ ' ') with
    | nil => exact absurd hc hne
    | cons d e => exact ⟨d, e, rfl⟩
  have hd : d = ' ' := by
    have := dropWhile_head_not (fun c => decide (c ≠ ' ')) cs.reverse d e (by simpa using hde)
    simpa using this
  have hsplit : cs.reverse = cs.reverse.takeWhile (fun c => c ≠ ' ') ++ d :: e := by
    rw [← hde, List.takeWhile_append_dropWhile]
  have hbls : beforeLastSpace cs = e.reverse := by
    rw [beforeLastSpace, hde]
    rfl
  refine ⟨(cs.reverse.takeWhile (fun c => c ≠ ' ')).reverse, ?_, ?_⟩
  · rw [hbls]
    conv_lhs => rw [← List.reverse_reverse cs, hsplit, hd]
    rw [List.reverse_append]
    simp
  · intro hmem
    rw [List.mem_reverse] at hmem
    have := List.mem_takeWhile_imp hmem
    simp at this

/-- Unfolding of `make_excerpt` into its branches. -/
theorem make_excerpt_def (raw : String) (m : Nat) :
    make_excerpt raw m =
      (if clean_whitespace raw = "" then ""
       else if (clean_whitespace raw).toList.length ≤ m then clean_whitespace raw
       else String.mk (pyStripL
          (if ' ' ∈ (clean_whitespace raw).toList.take m
           then beforeLastSpace ((clean_whitespace raw).toList.take m)
           else (clean_whitespace raw).toList.take m)) ++ "…") := rfl

/-- The cleaned text has no leading whitespace. -/
theorem clean_whitespace_no_leading_ws (raw : String) :
    (clean_whitespace raw).toList.dropWhile isPyWs = (clean_whitespace raw).toList := by
  rw [clean_whitespace]
  exact dropWhile_pyStripL _

/-- C9 excerpt characterisation: a derived excerpt is empty for an empty
cleaned description, equal to the cleaned description when it fits, and
otherwise carries an ellipsis after a prefix that either ends right before
whitespace of the cleaned description (a word-boundary cut, taken when the
truncated prefix contains a space) or is the stripped hard prefix (taken
when it does not). -/
theorem make_excerpt_spec (raw : String) (m : Nat) :
    (clean_whitespace raw = "" ∧ make_excerpt raw m = "") ∨
    ((clean_whitespace raw).toList.length ≤ m ∧
      make_excerpt raw m = clean_whitespace raw) ∨
    (m < (clean_whitespace raw).toList.length ∧
      ((∃ w ch t2, make_excerpt raw m = String.mk w ++ "…" ∧
          (clean_whitespace raw).toList.take m = w ++ ch :: t2 ∧ isPyWs ch = true) ∨
       (' ' ∉ (clean_whitespace raw).toList.take m ∧
        make_excerpt raw m =
          String.mk (pyStripL ((clean_whitespace raw).toList.take m)) ++ "…"))) := by
  by_cases h0 : clean_whitespace raw = ""
  · exact Or.inl ⟨h0, by rw [make_excerpt_def, if_pos h0]⟩
  by_cases hlen : (clean_whitespace raw).toList.length ≤ m
  · exact Or.inr (Or.inl ⟨hlen, by rw [make_excerpt_def, if_neg h0, if_pos hlen]⟩)
  refine Or.inr (Or.inr ⟨by omega, ?_⟩)
  by_cases hsp : ' ' ∈ (clean_whitespace raw).toList.take m
  · left
    set cut := (clean_whitespace raw).toList.take m with hcut
    obtain ⟨rest, hrest, hnos⟩ := beforeLastSpace_spec hsp
    have hupre : beforeLastSpace cut <+: (clean_whitespace raw).toList := by
      refine List.IsPrefix.trans ⟨' ' :: rest, hrest.symm⟩ ?_
      rw [hcut]
      exact List.take_prefix _ _
    have huws : (beforeLastSpace cut).dropWhile isPyWs = beforeLastSpace cut :=
      dropWhile_eq_self_of_prefix (clean_whitespace_no_leading_ws raw) hupre
    obtain ⟨tail2, htail2, htail2ws⟩ := pyStripL_split huws
    have hval : make_excerpt raw m = String.mk (pyStripL (beforeLastSpace cut)) ++ "…" := by
      rw [make_excerpt_def, if_neg h0, if_neg hlen, if_pos hsp]
    cases tail2 with
    | nil =>
      refine ⟨pyStripL (beforeLastSpace cut), ' ', rest, hval, ?_, by decide⟩
      have hstep : beforeLastSpace cut ++ ' ' :: rest =
          pyStripL (beforeLastSpace cut) ++ ' ' :: rest := by
        conv_lhs => rw [htail2]
        simp
      exact hrest.trans hstep
    | cons c2 t2 =>
      refine ⟨pyStripL (beforeLastSpace cut), c2, t2 ++ ' ' :: rest, hval, ?_,
        htail2ws c2 (by simp)⟩
      have hstep : beforeLastSpace cut ++ ' ' :: rest =
          pyStripL (beforeLastSpace cut) ++ c2 :: (t2 ++ ' ' :: rest) := by
        conv_lhs => rw [htail2]
        simp
      exact hrest.trans hstep
  · right
    refine ⟨hsp, ?_⟩
    rw [make_excerpt_def, if_neg h0, if_neg hlen, if_neg hsp]

/-- Every record in the cleaning-loop output comes from the accumulator or
from cleaning one input object. -/
theorem cleanMainGo_mem {m : Nat} {c : CleanedNotice} :
    ∀ {rs : List Json} {seen : List String} {acc : List CleanedNotice},
      c ∈ cleanMainGo m seen acc rs →
      c ∈ acc ∨ ∃ kvs, c = clean_record kvs m := by
  intro rs
  induction rs with
  | nil =>
    intro seen acc h
    exact Or.inl h
  | cons r rest ih =>
    intro seen acc h
    cases r with
    | obj kvs =>
      rw [cleanMainGo] at h
      split at h
      · exact ih h
      · rcases ih h with hacc | hnew
        · rw [List.mem_append] at hacc
          rcases hacc with hacc | hacc
          · exact Or.inl hacc
          · exact Or.inr ⟨kvs, by simpa using hacc⟩
        · exact Or.inr hnew
    | null =>
      rw [cleanMainGo] at h
      exacts [ih h, fun kvs hk => Json.noConfusion hk]
    | bool b =>
      rw [cleanMainGo] at h
      exacts [ih h, fun kvs hk => Json.noConfusion hk]
    | num q =>
      rw [cleanMainGo] at h
      exacts [ih h, fun kvs hk => Json.noConfusion hk]
    | str s =>
      rw [cleanMainGo] at h
      exacts [ih h, fun kvs hk => Json.noConfusion hk]
    | arr xs =>
      rw [cleanMainGo] at h
      exacts [ih h, fun kvs hk => Json.noConfusion hk]

/-- The cleaning loop never emits two records with the same non-empty
identifier: emitted non-empty identifiers are tracked in `seen`, and a
record whose identifier is already in `seen` is skipped. -/
theorem cleanMainGo_pairwise {m : Nat} :
    ∀ (rs : List Json) (seen : List String) (acc : List CleanedNotice),
      (∀ c ∈ acc, c.notice_id ≠ "" → c.notice_id ∈ seen) →
      acc.Pairwise (fun a b => a.notice_id = b.notice_id → a.notice_id = "") →
      (cleanMainGo m seen acc rs).Pairwise
        (fun a b => a.notice_id = b.notice_id → a.notice_id = "") := by
  intro rs
  induction rs with
  | nil =>
    intro seen acc hinv hpw
    exact hpw
  | cons r rest ih =>
    intro seen acc hinv hpw
    cases r with
    | obj kvs =>
      rw [cleanMainGo]
      split
      · exact ih seen acc hinv hpw
      · rename_i hguard
        apply ih
        · intro c hc hne
          rw [List.mem_append] at hc
          rcases hc with hc | hc
          · have hmem := hinv c hc hne
            split
            · exact List.mem_append_left _ hmem
            · exact hmem
          · have hceq : c = clean_record kvs m := by simpa using hc
            subst hceq
            rw [if_pos hne]
            exact List.mem_append_right _ (by simp)
        · rw [List.pairwise_append]
          refine ⟨hpw, by simp, ?_⟩
          intro a ha b hb
          have hbeq : b = clean_record kvs m := by simpa using hb
          subst hbeq
          intro heq
          by_contra hane
          have hmem := hinv a ha hane
          rw [heq] at hmem hane
          exact hguard ⟨hane, hmem⟩
    | null =>
      rw [cleanMainGo]
      exacts [ih seen acc hinv hpw, fun kvs hk => Json.noConfusion hk]
    | bool b =>
      rw [cleanMainGo]
      exacts [ih seen acc hinv hpw, fun kvs hk => Json.noConfusion hk]
    | num q =>
      rw [cleanMainGo]
      exacts [ih seen acc hinv hpw, fun kvs hk => Json.noConfusion hk]
    | str s =>
      rw [cleanMainGo]
      exacts [ih seen acc hinv hpw, fun kvs hk => Json.noConfusion hk]
    | arr xs =>
      rw [cleanMainGo]
      exacts [ih seen acc hinv hpw, fun kvs hk => Json.noConfusion hk]

set_option maxRecDepth 100000 in
/-- Counterexample to C9 as stated: cleaning `c9CexRecord` with
`--excerpt-max 10` derives the excerpt `abcdefghij…` from the description,
but the cut is not at a word boundary — the cleaned description continues
the same word (with `k`) right after the truncated prefix, and there is no
whitespace break at the cut point. -/
theorem c9_counterexample :
    (cleanMain [c9CexRecord] 10).map (fun c => c.description_excerpt)
        = ["abcdefghij…"] ∧
    (cleanMain [c9CexRecord] 10).map (fun c => c.description_raw)
        = ["abcdefghijklmno"] ∧
    ¬ (∃ tail2, "abcdefghijklmno".toList = "abcdefghij".toList ++ tail2 ∧
        (tail2 = [] ∨ ∃ ch t2, tail2 = ch :: t2 ∧ isPyWs ch = true)) := by
  refine ⟨by decide, by decide, ?_⟩
  rintro ⟨tail2, heq, hbreak⟩
  have ht : tail2 = ['k', 'l', 'm', 'n', 'o'] := by
    have h2 := congrArg (List.drop 10) heq
    simp at h2
    exact h2.symm
  subst ht
  rcases hbreak with h | ⟨ch, t2, hch, hws⟩
  · simp at h
  · cases hch
    exact absurd hws (by decide)

/-- C9, amended: every record emitted by the cleaning step has
classification codes of exactly eight digits and ISO-shaped-or-empty dates;
when the input lacks a description excerpt, one is derived from the cleaned
full description — returned whole when it fits the limit, and otherwise
truncated with an ellipsis marker appended, the cut being at a word
boundary (immediately before whitespace of the cleaned description) when
the truncated prefix contains a space, and a hard character-limit cut
otherwise; and no two emitted records share the same non-empty
identifier. -/
theorem c9_amended_cleaning :
    (∀ (records : List Json) (m : Nat), ∀ c ∈ cleanMain records m,
      (∀ code ∈ c.cpv_codes, is8Digits code = true) ∧
      (c.published_date = "" ∨ isIsoShape c.published_date = true) ∧
      (c.deadline = "" ∨ isIsoShape c.deadline = true)) ∧
    (∀ (n : List (String × Json)) (m : Nat),
      clean_whitespace (pyStrJ (pyOr (pyGet n "description_excerpt") (.str ""))) = "" →
      (clean_record n m).description_excerpt =
        make_excerpt (clean_record n m).description_raw m) ∧
    (∀ (raw : String) (m : Nat),
      (clean_whitespace raw = "" ∧ make_excerpt raw m = "") ∨
      ((clean_whitespace raw).toList.length ≤ m ∧
        make_excerpt raw m = clean_whitespace raw) ∨
      (m < (clean_whitespace raw).toList.length ∧
        ((∃ w ch t2, make_excerpt raw m = String.mk w ++ "…" ∧
            (clean_whitespace raw).toList.take m = w ++ ch :: t2 ∧ isPyWs ch = true) ∨
         (' ' ∉ (clean_whitespace raw).toList.take m ∧
          make_excerpt raw m =
            String.mk (pyStripL ((clean_whitespace raw).toList.take m)) ++ "…")))) ∧
    (∀ (records : List Json) (m : Nat),
      (cleanMain records m).Pairwise
        (fun a b => a.notice_id = b.notice_id → a.notice_id = "")) := by
  refine ⟨?_, ?_, make_excerpt_spec, ?_⟩
  · intro records m c hc
    rcases cleanMainGo_mem hc with h | ⟨kvs, rfl⟩
    · cases h
    · refine ⟨?_, ?_, ?_⟩
      · exact normalize_cpv_codes_eight_digits kvs
      · exact normalize_date_shape _
      · exact normalize_date_shape _
  · intro n m hempty
    show (if clean_whitespace (pyStrJ (pyOr (pyGet n "description_excerpt") (.str ""))) = ""
        then make_excerpt (clean_whitespace (pyStrJ (pyOr
          (pyOr (pyGet n "description_raw") (pyGet n "description")) (.str "")))) m
        else clean_whitespace (pyStrJ (pyOr (pyGet n "description_excerpt") (.str "")))) =
      make_excerpt (clean_record n m).description_raw m
    rw [if_pos hempty]
    rfl
  · intro records m
    exact cleanMainGo_pairwise records [] [] (by simp) (by simp)

set_option maxRecDepth 100000 in
/-- Witness for C9 (amended) at a concrete one-record dataset and at a
concrete input record lacking an excerpt. -/
theorem c9_amended_cleaning_witness :
    ((∀ code ∈ c9WitnessCleaned.cpv_codes, is8Digits code = true) ∧
      (c9WitnessCleaned.published_date = "" ∨
        isIsoShape c9WitnessCleaned.published_date = true) ∧
      (c9WitnessCleaned.deadline = "" ∨
        isIsoShape c9WitnessCleaned.deadline = true)) ∧
    ((clean_record [("cpv_codes", Json.str "45000000 12345678")] 1200).description_excerpt =
      make_excerpt
        (clean_record [("cpv_codes", Json.str "45000000 12345678")] 1200).description_raw
        1200) :=
  ⟨c9_amended_cleaning.1 [.obj [("cpv_codes", Json.str "45000000 12345678")]] 1200
      c9WitnessCleaned (by decide),
   c9_amended_cleaning.2.1 [("cpv_codes", Json.str "45000000 12345678")] 1200 (by decide)⟩
